import Mathlib

/-!
Verification development for the review-collection scripts of the
DataScienceDataset repository.

The development shallowly embeds the duplicate-aware, quota-balanced
collector logic of `ENGLISH/steam_scrapping/steam_scr3.py` and
`ENGLISH/steam_scrapping/steam_scr.py`, the filter loop of
`ENGLISH/metacritic/scrapper.py`, and the text-transformation fallbacks of
`ARABIC/DataCleaning/TranslatingToEnglish/pipeline.py` and
`translate_only.py`.

Python strings are modelled as `List Char`; remote HTTP pagination is
modelled as a finite list of successfully decoded pages (a network or
decode failure, a missing cursor and an exhausted listing all end the
page list); external ML services (translation, summarization) are
modelled as explicit function parameters that may fail (`Except`),
matching the spec's black-box treatment.
-/

namespace DS

/-! ### Python `str.split()` (split on whitespace, dropping empty fields) -/

/-- Helper for `pyWords`: `cur` is the reversed word currently being read. -/
def pyWordsAux : List Char → List Char → List (List Char)
  | [], cur => if cur = [] then [] else [cur.reverse]
  | c :: cs, cur =>
    if c.isWhitespace then
      if cur = [] then pyWordsAux cs [] else cur.reverse :: pyWordsAux cs []
    else pyWordsAux cs (c :: cur)

/-- Python `text.split()`: the whitespace-separated words of a text. -/
def pyWords (s : List Char) : List (List Char) :=
  pyWordsAux s []

/-- Python `" ".join(ws)`. -/
def joinSpace : List (List Char) → List Char
  | [] => []
  | [w] => w
  | w :: ws => w ++ ' ' :: joinSpace ws

/-- Python `len(text.split())`, the word count used throughout the repo. -/
def countWords (s : List Char) : Nat :=
  (pyWords s).length

/-! ### Data model of the Steam collector (`steam_scr3.py`) -/

/-- One raw candidate review as returned by the Steam review endpoint:
`review["author"]["steamid"]`, `review["review"]`, `review["voted_up"]`. -/
structure Review where
  userId : String
  text : List Char
  votedUp : Bool
deriving DecidableEq, Repr

/-- One persisted record (row of the CSV): the fields of the dict built in
`_scrape_by_type` that the collector logic reads back (`game_name`,
`user_id`, `review_text`, `voted_up`). -/
structure Row where
  gameName : String
  userId : String
  reviewText : List Char
  votedUp : Bool
deriving DecidableEq, Repr

/-- The identity tracker `self.existing_reviews`: a set of
`(user_id, game_name)` pairs, modelled as a list used only through
membership (Python `set` with `in` and `add`). -/
abbrev Tracker := List (String × String)

/-- `SmartSteamScraper.__init__`: the pairs inserted into the tracker when
scanning the prior table — every `(user_id, game_name)` with
`user_id != 'N/A'`. -/
def realPairs (rows : List Row) : Tracker :=
  rows.filterMap fun r =>
    if r.userId ≠ "N/A" then some (r.userId, r.gameName) else none

/-- `SmartSteamScraper.is_duplicate`. -/
def isDuplicate (tr : Tracker) (userId gameName : String) : Bool :=
  decide ((userId, gameName) ∈ tr)

/-- Positive count of a game in a table: `game_data['voted_up'].sum()`. -/
def posCount (rows : List Row) (g : String) : Nat :=
  (rows.filter fun r => r.gameName = g ∧ r.votedUp = true).length

/-- Negative count of a game in a table:
`len(game_data) - game_data['voted_up'].sum()`. -/
def negCount (rows : List Row) (g : String) : Nat :=
  (rows.filter fun r => r.gameName = g ∧ r.votedUp = false).length

/-- `SmartSteamScraper.calculate_needed`: per-category targets are both
`target_per_game // 2`; needed is `max(0, target - current)`. -/
def calculateNeeded (targetPerGame currentPos currentNeg : Nat) : Int × Int :=
  let targetPos : Int := (targetPerGame / 2 : Nat)
  let targetNeg : Int := (targetPerGame / 2 : Nat)
  (max 0 (targetPos - currentPos), max 0 (targetNeg - currentNeg))

/-- The minimum-length gate of `_scrape_by_type`:
`len(review_text.split()) < 5`. -/
def shortText (t : List Char) : Bool :=
  decide (countWords t < 5)

/-- The record built from an accepted candidate in `_scrape_by_type`. -/
def mkRow (g : String) (r : Review) : Row :=
  ⟨g, r.userId, r.text, r.votedUp⟩

/-- The inner `for review in batch_reviews` loop of `_scrape_by_type`:
skip duplicates, skip short texts, append and track otherwise, and break
once `len(reviews) >= target_count`. -/
def processBatch (g : String) (target : Nat) :
    List Review → List Row → Tracker → List Row × Tracker
  | [], acc, tr => (acc, tr)
  | r :: rs, acc, tr =>
    if isDuplicate tr r.userId g then processBatch g target rs acc tr
    else if shortText r.text then processBatch g target rs acc tr
    else
      let acc' := acc ++ [mkRow g r]
      let tr' := (r.userId, g) :: tr
      if target ≤ acc'.length then (acc', tr')
      else processBatch g target rs acc' tr'

/-- `max_pages = 50` in `_scrape_by_type`. -/
def maxPages : Nat := 50

/-- Result of one `_scrape_by_type` call: the new records, the updated
tracker, the final `pages_checked` counter and the number of page
requests issued. -/
structure FetchResult where
  rows : List Row
  tracker : Tracker
  pagesChecked : Nat
  requests : Nat
deriving Repr

/-- The `while len(reviews) < target_count and pages_checked < max_pages`
page loop of `_scrape_by_type`.  Each element of `pages` is the decoded
review batch of one successful request; the end of the list covers a
failed request, `success` false, and a missing cursor.  An empty batch
breaks the loop after the request. -/
def scrapeByTypeAux (g : String) (target : Nat) :
    List (List Review) → Nat → Nat → List Row → Tracker → FetchResult
  | [], pc, req, acc, tr => ⟨acc, tr, pc, req⟩
  | page :: rest, pc, req, acc, tr =>
    if acc.length < target ∧ pc < maxPages then
      if page = [] then ⟨acc, tr, pc, req + 1⟩
      else
        let p := processBatch g target page acc tr
        scrapeByTypeAux g target rest (pc + 1) (req + 1) p.1 p.2
    else ⟨acc, tr, pc, req⟩

/-- `SmartSteamScraper._scrape_by_type`. -/
def scrapeByType (g : String) (target : Nat) (pages : List (List Review))
    (tr : Tracker) : FetchResult :=
  scrapeByTypeAux g target pages 0 0 [] tr

/-- The per-game remote data: the positive-filter listing and the
negative-filter listing of one game in `GAME_IDS`. -/
structure GamePages where
  name : String
  posPages : List (List Review)
  negPages : List (List Review)

/-- The collector's mutable state: `self.existing_reviews` and
`self.game_stats` (absent games behave as `(0, 0)`). -/
structure ScrapeState where
  tracker : Tracker
  stats : String → Nat × Nat

/-- `SmartSteamScraper.scrape_game`: plan with `calculate_needed`, skip a
satisfied game, otherwise fetch positive then negative reviews and update
`game_stats` by the collected amounts. -/
def scrapeGame (target : Nat) (st : ScrapeState) (gp : GamePages) :
    List Row × ScrapeState :=
  let cur := st.stats gp.name
  let needed := calculateNeeded target cur.1 cur.2
  if needed.1 = 0 ∧ needed.2 = 0 then ([], st)
  else
    let posRes :=
      if 0 < needed.1 then scrapeByType gp.name needed.1.toNat gp.posPages st.tracker
      else ⟨[], st.tracker, 0, 0⟩
    let negRes :=
      if 0 < needed.2 then scrapeByType gp.name needed.2.toNat gp.negPages posRes.tracker
      else ⟨[], posRes.tracker, 0, 0⟩
    let stats' := fun x =>
      if x = gp.name then (cur.1 + posRes.rows.length, cur.2 + negRes.rows.length)
      else st.stats x
    (posRes.rows ++ negRes.rows, ⟨negRes.tracker, stats'⟩)

/-- The planner value computed at the start of `scrape_game`. -/
def sgNeeded (target : Nat) (st : ScrapeState) (gp : GamePages) : Int × Int :=
  calculateNeeded target (st.stats gp.name).1 (st.stats gp.name).2

/-- The positive-category fetch performed by `scrape_game` (empty when
`needed_pos` is not positive). -/
def sgPosRes (target : Nat) (st : ScrapeState) (gp : GamePages) : FetchResult :=
  if 0 < (sgNeeded target st gp).1 then
    scrapeByType gp.name (sgNeeded target st gp).1.toNat gp.posPages st.tracker
  else ⟨[], st.tracker, 0, 0⟩

/-- The negative-category fetch performed by `scrape_game`. -/
def sgNegRes (target : Nat) (st : ScrapeState) (gp : GamePages) : FetchResult :=
  if 0 < (sgNeeded target st gp).2 then
    scrapeByType gp.name (sgNeeded target st gp).2.toNat gp.negPages
      (sgPosRes target st gp).tracker
  else ⟨[], (sgPosRes target st gp).tracker, 0, 0⟩

/-- `SmartSteamScraper.__init__` on an existing table: tracker from the
real `(user_id, game_name)` pairs, stats from the per-game counts. -/
def initState (prior : List Row) : ScrapeState :=
  ⟨realPairs prior, fun g => (posCount prior g, negCount prior g)⟩

/-- The `for app_id, game_name in game_ids.items()` loop of
`scrape_all_games`, accumulating all new reviews. -/
def runAux (target : Nat) : List GamePages → ScrapeState → List Row × ScrapeState
  | [], st => ([], st)
  | gp :: rest, st =>
    let p := scrapeGame target st gp
    let q := runAux target rest p.2
    (p.1 ++ q.1, q.2)

/-- One collector run: `SmartSteamScraper(existing_file).scrape_all_games`,
returning the newly accepted records. -/
def runScraper (target : Nat) (prior : List Row) (games : List GamePages) :
    List Row :=
  (runAux target games (initState prior)).1

/-- `pd.concat([df_existing, df_new], ignore_index=True)` in `main` of
`steam_scr3.py` (and the identical concat in `metacritic/scrapper.py`):
prior rows first, new records after, in encounter order. -/
def mergeTables (prior newRows : List Row) : List Row :=
  prior ++ newRows

/-- The table written back at the end of a run. -/
def finalTable (target : Nat) (prior : List Row) (games : List GamePages) :
    List Row :=
  mergeTables prior (runScraper target prior games)

/-! ### The older Steam fetch loop (`steam_scr.py`) -/

/-- The split convention in `main` of `steam_scr.py` (and of
`metacritic/scrapper.py`): `positive_per_game = reviews_per_game // 2`. -/
def positivePerGame (reviewsPerGame : Nat) : Nat :=
  reviewsPerGame / 2

/-- `negative_per_game = reviews_per_game - positive_per_game`. -/
def negativePerGame (reviewsPerGame : Nat) : Nat :=
  reviewsPerGame - positivePerGame reviewsPerGame

/-- The inner filter loop of `fetch_reviews_by_type` in `steam_scr.py`:
keep texts longer than 10 characters (no duplicate check), break once
`len(reviews) >= num_reviews`. -/
def fetchBatchScr1 (target : Nat) : List Review → List Review → List Review
  | [], acc => acc
  | r :: rs, acc =>
    if 10 < r.text.length then
      let acc' := acc ++ [r]
      if target ≤ acc'.length then acc' else fetchBatchScr1 target rs acc'
    else fetchBatchScr1 target rs acc

/-- The `while len(reviews) < num_reviews` page loop of
`fetch_reviews_by_type` in `steam_scr.py`: no page-count ceiling.
Returns the accepted reviews and the number of page requests issued. -/
def fetchReviewsByTypeAux (target : Nat) :
    List (List Review) → Nat → List Review → List Review × Nat
  | [], req, acc => (acc, req)
  | page :: rest, req, acc =>
    if acc.length < target then
      if page = [] then (acc, req + 1)
      else fetchReviewsByTypeAux target rest (req + 1) (fetchBatchScr1 target page acc)
    else (acc, req)

/-- `fetch_reviews_by_type` of `steam_scr.py`. -/
def fetchReviewsByType (target : Nat) (pages : List (List Review)) :
    List Review × Nat :=
  fetchReviewsByTypeAux target pages 0 []

/-! ### The Metacritic filter loop (`metacritic/scrapper.py`) -/

/-- One parsed review card of the Metacritic page: the extracted integer
score, the quote text and the author (the `'Anonymous'` placeholder when
the username link is absent). -/
structure MCand where
  score : Int
  text : String
  author : String
deriving DecidableEq, Repr

/-- One record appended by `scrape_reviews_by_sentiment`. -/
structure MRow where
  reviewText : String
  userScore : Int
  votedUp : Bool
  author : String
deriving DecidableEq, Repr

/-- The `for review in review_divs` loop of `scrape_reviews_by_sentiment`:
sentiment filter (`positive` keeps score ≥ 7, `negative` keeps score ≤ 4),
minimum text length (`len(review_text) <= 10` is skipped), duplicate check
against the `(author, game)` set, then append, track, and break once
`len(reviews) >= num_reviews`. -/
def mcProcess (sentiment g : String) (target : Nat) :
    List MCand → List MRow → Tracker → List MRow × Tracker
  | [], acc, tr => (acc, tr)
  | c :: cs, acc, tr =>
    if sentiment = "positive" ∧ c.score < 7 then
      mcProcess sentiment g target cs acc tr
    else if sentiment = "negative" ∧ 4 < c.score then
      mcProcess sentiment g target cs acc tr
    else if c.text.length ≤ 10 then
      mcProcess sentiment g target cs acc tr
    else if (c.author, g) ∈ tr then
      mcProcess sentiment g target cs acc tr
    else
      let acc' := acc ++ [⟨c.text, c.score, decide (7 ≤ c.score), c.author⟩]
      let tr' := (c.author, g) :: tr
      if target ≤ acc'.length then (acc', tr')
      else mcProcess sentiment g target cs acc' tr'

/-- `scrape_reviews_by_sentiment` on the parsed cards of the single
user-reviews page it requests. -/
def mcScrape (sentiment g : String) (target : Nat) (cards : List MCand)
    (tr : Tracker) : List MRow × Tracker :=
  mcProcess sentiment g target cards [] tr

/-! ### Text-transformation pipelines (`translate_only.py`, `pipeline.py`) -/

/-- Fuel-indexed recursion for `detag`; the fuel (initially the input
length) strictly exceeds the number of remaining steps, so the `0` case is
never reached from `detag`. -/
def detagAux : Nat → List Char → List Char
  | 0, l => l
  | _ + 1, [] => []
  | fuel + 1, c :: rest =>
    if c = '<' then
      match rest.dropWhile (fun d => decide (d ≠ '>')),
            rest.takeWhile (fun d => decide (d ≠ '>')) with
      | '>' :: tail, _ :: _ => ' ' :: detagAux fuel tail
      | _, _ => '<' :: detagAux fuel rest
    else c :: detagAux fuel rest

/-- The tag-removal regex substitution `re.sub(r"<[^>]+>", " ", s)` of
`TranslationPipeline.strip_html`: each leftmost `<`…`>` group with at
least one non-`>` character between the brackets becomes one space. -/
def detag (s : List Char) : List Char :=
  detagAux s.length s

/-- `TranslationPipeline.strip_html`: remove tags, unescape HTML entities
(`html.unescape`, an opaque stdlib transformation, passed as a
parameter), and normalize whitespace with `" ".join(s.split())`. -/
def stripHtml (unescape : List Char → List Char) (s : List Char) : List Char :=
  joinSpace (pyWords (unescape (detag s)))

/-- The per-row translation step of
`TranslationPipeline.process_dataframe` in `translate_only.py`: empty or
whitespace-only texts are kept as-is; otherwise the HTML-stripped text is
translated, and a translation exception falls back to the HTML-stripped
text (`translated = cleaned_input`).  Processing always continues with
the remaining rows. -/
def processDataframe (unescape : List Char → List Char)
    (translateOne : List Char → Except Unit (List Char))
    (texts : List (List Char)) : List (List Char) :=
  texts.map fun t =>
    if pyWords t = [] then t
    else
      let cleaned := stripHtml unescape t
      match translateOne cleaned with
      | .ok tr => tr
      | .error _ => cleaned

/-- The placeholder written by `process_reviews` in `pipeline.py` when
`translate_batch` raises: `translations = ["[TRANSLATION_ERROR]"] * len(batch)`. -/
def translationErrorText : List Char :=
  "[TRANSLATION_ERROR]".toList

/-- The translation step of `TranslationExtractionPipeline.process_reviews`
on one batch: on an exception every text of the batch becomes the
`[TRANSLATION_ERROR]` placeholder. -/
def translateStage (translate : List (List Char) → Except Unit (List (List Char)))
    (batch : List (List Char)) : List (List Char) :=
  match translate batch with
  | .ok ts => ts
  | .error _ => List.replicate batch.length translationErrorText

/-- Python `' '.join(text.split()[:n])`: the first `n` words of a text. -/
def truncWords (t : List Char) (n : Nat) : List Char :=
  joinSpace ((pyWords t).take n)

/-- `TranslationExtractionPipeline.extract_opinions_batch` on one text:
texts inside `[min_words, max_words]` and texts below `min_words` are kept
unchanged; longer texts are summarized (black-box `summarize`), the
summary is truncated to `max_words` words if still too long, and a
summarizer exception falls back to truncating the original text. -/
def extractOpinion (summarize : List Char → Except Unit (List Char))
    (minW maxW : Nat) (t : List Char) : List Char :=
  let wc := countWords t
  if minW ≤ wc ∧ wc ≤ maxW then t
  else if wc < minW then t
  else if maxW < wc then
    match summarize t with
    | .ok s => if maxW < countWords s then truncWords s maxW else s
    | .error _ => truncWords t maxW
  else t

/-- `extract_opinions_batch` over a list of texts. -/
def extractOpinionsBatch (summarize : List Char → Except Unit (List Char))
    (minW maxW : Nat) (texts : List (List Char)) : List (List Char) :=
  texts.map (extractOpinion summarize minW maxW)

/-- The opinion-extraction step of `process_reviews` on one batch: an
exception at this stage falls back to the translations
(`opinions = translations`). -/
def opinionStage (extractBatch : List (List Char) → Except Unit (List (List Char)))
    (translations : List (List Char)) : List (List Char) :=
  match extractBatch translations with
  | .ok os => os
  | .error _ => translations

/-- The per-batch body of `process_reviews` in `pipeline.py`, returning
the final opinion texts for the batch; `process_reviews` maps it over the
successive batches, so a failing batch never stops later batches. -/
def processReviewsBatches
    (translate : List (List Char) → Except Unit (List (List Char)))
    (extractBatch : List (List Char) → Except Unit (List (List Char)))
    (batches : List (List (List Char))) : List (List (List Char)) :=
  batches.map fun b => opinionStage extractBatch (translateStage translate b)

/-- The identity keys of a list of records, taken unconditionally (used to
relate the tracker to the rows it was built from). -/
def rowPairs (rows : List Row) : Tracker :=
  rows.map fun r => (r.userId, r.gameName)

/-! ## Lemmas about Python word splitting -/

theorem pyWordsAux_append_word (w : List Char) :
    ∀ (rest cur : List Char), (∀ c ∈ w, c.isWhitespace = false) →
      pyWordsAux (w ++ rest) cur = pyWordsAux rest (w.reverse ++ cur) := by
  induction w with
  | nil => intro rest cur _; simp
  | cons c cs ih =>
    intro rest cur hw
    have hc : c.isWhitespace = false := hw c (by simp)
    simp only [List.cons_append, pyWordsAux, hc, Bool.false_eq_true, if_false,
      List.append_eq]
    rw [ih rest (c :: cur) (fun d hd => hw d (by simp [hd]))]
    simp

theorem pyWordsAux_tokens (s : List Char) :
    ∀ cur : List Char, (∀ c ∈ cur, c.isWhitespace = false) →
      ∀ w ∈ pyWordsAux s cur, w ≠ [] ∧ ∀ c ∈ w, c.isWhitespace = false := by
  induction s with
  | nil =>
    intro cur hcur w hw
    by_cases h : cur = []
    · simp [pyWordsAux, h] at hw
    · simp only [pyWordsAux, if_neg h, List.mem_singleton] at hw
      subst hw
      refine ⟨by simpa using h, fun c hc => hcur c (by simpa using hc)⟩
  | cons c cs ih =>
    intro cur hcur w hw
    by_cases hcw : c.isWhitespace = true
    · by_cases h : cur = []
      · simp only [pyWordsAux, hcw, if_true, h, if_pos rfl] at hw
        exact ih [] (by simp) w hw
      · simp only [pyWordsAux, hcw, if_true, if_neg h, List.mem_cons] at hw
        rcases hw with rfl | hw
        · exact ⟨by simpa using h, fun d hd => hcur d (by simpa using hd)⟩
        · exact ih [] (by simp) w hw
    · simp only [pyWordsAux, hcw, if_false] at hw
      refine ih (c :: cur) ?_ w hw
      intro d hd
      rcases List.mem_cons.mp hd with rfl | hd
      · simpa using hcw
      · exact hcur d hd

theorem pyWords_tokens (s : List Char) :
    ∀ w ∈ pyWords s, w ≠ [] ∧ ∀ c ∈ w, c.isWhitespace = false :=
  pyWordsAux_tokens s [] (by simp)

theorem pyWords_joinSpace (ws : List (List Char))
    (h : ∀ w ∈ ws, w ≠ [] ∧ ∀ c ∈ w, c.isWhitespace = false) :
    pyWords (joinSpace ws) = ws := by
  induction ws with
  | nil => simp [joinSpace, pyWords, pyWordsAux]
  | cons w ws ih =>
    obtain ⟨hw, hwc⟩ := h w (by simp)
    have hspace : (' ' : Char).isWhitespace = true := by decide
    cases ws with
    | nil =>
      show pyWords (joinSpace [w]) = [w]
      have h2 : joinSpace [w] = w := rfl
      have h1 : pyWords w = pyWordsAux [] w.reverse := by
        have := pyWordsAux_append_word w [] [] hwc
        simpa [pyWords] using this
      rw [h2, h1]
      simp [pyWordsAux, hw]
    | cons w' ws' =>
      show pyWords (w ++ ' ' :: joinSpace (w' :: ws')) = w :: w' :: ws'
      unfold pyWords
      rw [pyWordsAux_append_word w _ [] hwc]
      simp only [List.append_nil]
      have hrev : ¬ (w.reverse = []) := by simpa using hw
      simp only [pyWordsAux, hspace, if_true, if_neg hrev, List.reverse_reverse]
      have := ih (fun u hu => h u (by simp [hu]))
      unfold pyWords at this
      rw [this]

theorem countWords_truncWords (t : List Char) (n : Nat) :
    countWords (truncWords t n) = min n (countWords t) := by
  unfold truncWords countWords
  rw [pyWords_joinSpace _ (fun w hw => pyWords_tokens t w (List.take_subset n _ hw))]
  simp [List.length_take]

/-! ## Claim C10 -/

/-- C10: every text returned by `extract_opinions_batch` has at most
`max_words` words; a text already within `[min_words, max_words]` or below
`min_words` is returned unchanged, and a longer text is summarized and
then, if the summary still exceeds `max_words` or the summarizer raises,
truncated to its first `max_words` words. -/
theorem C10_extract_opinions_word_bound
    (summarize : List Char → Except Unit (List Char)) (minW maxW : Nat)
    (hmw : minW ≤ maxW) (texts : List (List Char)) :
    (∀ o ∈ extractOpinionsBatch summarize minW maxW texts, countWords o ≤ maxW) ∧
    (∀ t ∈ texts, countWords t ≤ maxW → extractOpinion summarize minW maxW t = t) ∧
    (∀ t ∈ texts, maxW < countWords t →
      extractOpinion summarize minW maxW t =
        match summarize t with
        | .ok s => if maxW < countWords s then truncWords s maxW else s
        | .error _ => truncWords t maxW) := by
  refine ⟨?_, ?_, ?_⟩
  · intro o ho
    simp only [extractOpinionsBatch, List.mem_map] at ho
    obtain ⟨t, _, rfl⟩ := ho
    by_cases h1 : minW ≤ countWords t ∧ countWords t ≤ maxW
    · simp [extractOpinion, h1, h1.2]
    · by_cases h2 : countWords t < minW
      · have : countWords t ≤ maxW := by omega
        simpa [extractOpinion, h1, h2]
      · have h3 : maxW < countWords t := by omega
        cases hs : summarize t with
        | ok s =>
          by_cases h4 : maxW < countWords s
          · simp [extractOpinion, h1, h2, h3, hs, h4, countWords_truncWords]
          · simp only [extractOpinion, if_neg h1, if_neg h2, if_pos h3, hs,
              if_neg h4]
            omega
        | error e =>
          simp [extractOpinion, h1, h2, h3, hs, countWords_truncWords]
  · intro t _ hle
    by_cases h1 : minW ≤ countWords t
    · simp [extractOpinion, h1, hle]
    · have h2 : countWords t < minW := by omega
      simp [extractOpinion, h2]
  · intro t _ hgt
    have h1 : ¬ (minW ≤ countWords t ∧ countWords t ≤ maxW) := by omega
    have h2 : ¬ (countWords t < minW) := by omega
    simp only [extractOpinion, if_neg h1, if_neg h2, if_pos hgt]

/-- Witness for C10 at the pipeline's actual configuration
(`min_words=5`, `max_words=300`) and an always-failing summarizer. -/
theorem C10_extract_opinions_word_bound_witness :
    5 ≤ 300 ∧
    ∀ o ∈ extractOpinionsBatch (fun _ => Except.error ()) 5 300 [['h', 'i']],
      countWords o ≤ 300 :=
  ⟨by decide,
    (C10_extract_opinions_word_bound (fun _ => Except.error ()) 5 300
      (by decide) [['h', 'i']]).1⟩

/-! ## Claim C8 -/

/-- C8 counterexample: in `pipeline.py`'s `process_reviews`, a translation
failure on the batch `["hi"]` produces the `[TRANSLATION_ERROR]`
placeholder, not the original text passed through unchanged. -/
theorem C8_cex :
    translateStage (fun _ => Except.error ()) [['h', 'i']] ≠ [['h', 'i']] := by
  decide

/-- C8 (amended): a translation failure never propagates — each batch (in
`pipeline.py`) and each row (in `translate_only.py`) is processed
independently — but the fallback differs from the claim: `pipeline.py`
substitutes the `[TRANSLATION_ERROR]` placeholder for every text of the
failing batch, while `translate_only.py` falls back to the HTML-stripped
original text, not the raw original. -/
theorem C8_translation_fallback
    (translate : List (List Char) → Except Unit (List (List Char)))
    (extractB : List (List Char) → Except Unit (List (List Char)))
    (batches : List (List (List Char)))
    (unescape : List Char → List Char)
    (translateOne : List Char → Except Unit (List Char))
    (texts : List (List Char)) (i : Nat) :
    (processReviewsBatches translate extractB batches).length = batches.length ∧
    (∀ b, translate b = Except.error () →
      translateStage translate b = List.replicate b.length translationErrorText) ∧
    ((processReviewsBatches translate extractB batches)[i]? =
      (batches[i]?).map fun b => opinionStage extractB (translateStage translate b)) ∧
    (processDataframe unescape translateOne texts).length = texts.length ∧
    (∀ t, texts[i]? = some t → pyWords t ≠ [] →
      translateOne (stripHtml unescape t) = Except.error () →
      (processDataframe unescape translateOne texts)[i]? =
        some (stripHtml unescape t)) := by
  refine ⟨?_, ?_, ?_, ?_, ?_⟩
  · simp [processReviewsBatches]
  · intro b hb
    simp [translateStage, hb]
  · simp [processReviewsBatches, List.getElem?_map]
  · simp [processDataframe]
  · intro t ht hne herr
    simp only [processDataframe, List.getElem?_map, ht, Option.map_some']
    simp [hne, herr]

/-- Witness for C8 at a concrete failing translator and one-row table. -/
theorem C8_translation_fallback_witness :
    (processDataframe id (fun _ => Except.error ()) [['h', 'i']])[0]? =
      some (stripHtml id ['h', 'i']) :=
  (C8_translation_fallback (fun _ => Except.error ()) (fun _ => Except.error ())
      [] id (fun _ => Except.error ()) [['h', 'i']] 0).2.2.2.2
    ['h', 'i'] rfl (by decide) rfl

/-! ## Claim C5 -/

/-- C5: a Metacritic candidate whose score lies strictly between the
negative threshold (≤ 4) and the positive threshold (≥ 7) — i.e. scores
5 and 6 — is rejected by both a `"positive"`-sentiment fetch and a
`"negative"`-sentiment fetch: processing it is the same as skipping it. -/
theorem C5_neutral_band_rejected (c : MCand) (cs : List MCand) (g : String)
    (target : Nat) (acc : List MRow) (tr : Tracker)
    (h4 : 4 < c.score) (h7 : c.score < 7) :
    mcProcess "positive" g target (c :: cs) acc tr =
      mcProcess "positive" g target cs acc tr ∧
    mcProcess "negative" g target (c :: cs) acc tr =
      mcProcess "negative" g target cs acc tr := by
  constructor
  · simp [mcProcess, h7]
  · simp [mcProcess, h4, h7]

/-- Witness for C5 at the concrete neutral score 5. -/
theorem C5_neutral_band_rejected_witness :
    (4 : Int) < 5 ∧ (5 : Int) < 7 ∧
    mcProcess "positive" "g" 3 [⟨5, "a sufficiently long review", "u"⟩] [] [] =
      mcProcess "positive" "g" 3 [] [] [] :=
  ⟨by decide, by decide,
    (C5_neutral_band_rejected ⟨5, "a sufficiently long review", "u"⟩ [] "g" 3 [] []
      (by decide) (by decide)).1⟩

/-! ## Claim C3 -/

/-- C3: the quota planner computes `needed = max(0, target - current)` per
category, never negative, zero (and skipped) for a subject at or above
target, and `needed = {positive: 2, negative: 5}` for target 10 with
current counts 3 positive / 0 negative. -/
theorem C3_planner_clamps (t cp cn : Nat) (st : ScrapeState) (gp : GamePages) :
    calculateNeeded t cp cn =
      (max 0 (((t / 2 : Nat) : Int) - cp), max 0 (((t / 2 : Nat) : Int) - cn)) ∧
    0 ≤ (calculateNeeded t cp cn).1 ∧ 0 ≤ (calculateNeeded t cp cn).2 ∧
    (t / 2 ≤ cp → (calculateNeeded t cp cn).1 = 0) ∧
    (t / 2 ≤ cn → (calculateNeeded t cp cn).2 = 0) ∧
    (calculateNeeded t (st.stats gp.name).1 (st.stats gp.name).2 = (0, 0) →
      (scrapeGame t st gp).1 = []) ∧
    calculateNeeded 10 3 0 = (2, 5) := by
  refine ⟨rfl, le_max_left 0 _, le_max_left 0 _, ?_, ?_, ?_, by decide⟩
  · intro h
    show max 0 (((t / 2 : Nat) : Int) - cp) = 0
    apply max_eq_left
    have : ((t / 2 : Nat) : Int) ≤ cp := by exact_mod_cast h
    omega
  · intro h
    show max 0 (((t / 2 : Nat) : Int) - cn) = 0
    apply max_eq_left
    have : ((t / 2 : Nat) : Int) ≤ cn := by exact_mod_cast h
    omega
  · intro h
    simp [scrapeGame, h]

/-- Witness for C3: a subject at or above target yields 0 and is skipped. -/
theorem C3_planner_clamps_witness :
    10 / 2 ≤ 7 ∧ (calculateNeeded 10 7 0).1 = 0 ∧
    (scrapeGame 10 ⟨[], fun _ => (5, 5)⟩ ⟨"g", [], []⟩).1 = [] :=
  ⟨by decide,
    (C3_planner_clamps 10 7 0 ⟨[], fun _ => (5, 5)⟩ ⟨"g", [], []⟩).2.2.2.1
      (by decide),
    (C3_planner_clamps 10 7 0 ⟨[], fun _ => (5, 5)⟩ ⟨"g", [], []⟩).2.2.2.2.2.1
      (by decide)⟩

/-! ## Claim C6 -/

/-- C6 counterexample: `steam_scr3.py`'s planner uses
`target_per_game // 2` for both categories, so for the odd total 5 the
per-category targets (exposed by `calculate_needed` at zero current
counts) sum to 4, not back to the total. -/
theorem C6_cex :
    ¬ ((calculateNeeded 5 0 0).1 + (calculateNeeded 5 0 0).2 = (5 : Int)) := by
  decide

/-- C6 (amended): the `main` split of `steam_scr.py` (and of the
Metacritic scraper) assigns `T div 2` and `T - T div 2`, which sum back to
the total for every `T`; `steam_scr3.py`'s `calculate_needed` instead uses
`T div 2` for both categories, so its per-category targets sum to
`2 * (T div 2)` — the given total only when `T` is even. -/
theorem C6_split_convention (r t : Nat) (ht : t % 2 = 0) :
    positivePerGame r + negativePerGame r = r ∧
    (calculateNeeded r 0 0).1 + (calculateNeeded r 0 0).2 =
      ((2 * (r / 2) : Nat) : Int) ∧
    (calculateNeeded t 0 0).1 + (calculateNeeded t 0 0).2 = (t : Int) := by
  have h1 : ∀ m : Nat, (calculateNeeded m 0 0).1 = ((m / 2 : Nat) : Int) := by
    intro m
    show max 0 (((m / 2 : Nat) : Int) - ((0 : Nat) : Int)) = _
    rw [Nat.cast_zero, sub_zero]
    exact max_eq_right (Int.natCast_nonneg _)
  have h2 : ∀ m : Nat, (calculateNeeded m 0 0).2 = ((m / 2 : Nat) : Int) := by
    intro m
    show max 0 (((m / 2 : Nat) : Int) - ((0 : Nat) : Int)) = _
    rw [Nat.cast_zero, sub_zero]
    exact max_eq_right (Int.natCast_nonneg _)
  refine ⟨?_, ?_, ?_⟩
  · simp only [positivePerGame, negativePerGame]
    omega
  · rw [h1, h2]
    push_cast
    ring
  · rw [h1, h2]
    omega

/-- Witness for C6 at the odd `main` total 5 and the even planner total 4. -/
theorem C6_split_convention_witness :
    positivePerGame 5 + negativePerGame 5 = 5 ∧
    (calculateNeeded 4 0 0).1 + (calculateNeeded 4 0 0).2 = (4 : Int) :=
  ⟨(C6_split_convention 5 4 (by decide)).1, (C6_split_convention 5 4 (by decide)).2.2⟩

/-! ## Claim C9 -/

/-- C9: `merge(priorTable, newRecords)` keeps the prior table's rows
unchanged and in order as the first rows of the output, appends the new
records after them in encounter order, and the written final table is
exactly this merge of the prior table with the run's new records. -/
theorem C9_merge_preserves (prior newRows : List Row) (target : Nat)
    (games : List GamePages) :
    (mergeTables prior newRows).take prior.length = prior ∧
    (mergeTables prior newRows).drop prior.length = newRows ∧
    (mergeTables prior newRows).length = prior.length + newRows.length ∧
    finalTable target prior games =
      mergeTables prior (runScraper target prior games) := by
  refine ⟨?_, ?_, ?_, rfl⟩ <;> simp [mergeTables]

/-! ## Accept-count bounds (claims C2 and C7) -/

theorem processBatch_length_le (g : String) (n : Nat) :
    ∀ (rs : List Review) (acc : List Row) (tr : Tracker), acc.length < n →
      ((processBatch g n rs acc tr).1).length ≤ n := by
  intro rs
  induction rs with
  | nil =>
    intro acc tr h
    simp only [processBatch]
    omega
  | cons r rs ih =>
    intro acc tr h
    by_cases hd : isDuplicate tr r.userId g
    · simp only [processBatch, hd, if_true]
      exact ih acc tr h
    · by_cases hs : shortText r.text
      · simp only [processBatch, hd, hs, Bool.false_eq_true, if_false, if_true]
        exact ih acc tr h
      · simp only [processBatch, hd, hs, Bool.false_eq_true, if_false]
        by_cases hn : n ≤ (acc ++ [mkRow g r]).length
        · rw [if_pos hn]
          simp only [List.length_append, List.length_singleton]
          omega
        · rw [if_neg hn]
          exact ih _ _ (by omega)

theorem scrapeByTypeAux_length_le (g : String) (n : Nat) :
    ∀ (pages : List (List Review)) (pc req : Nat) (acc : List Row)
      (tr : Tracker), acc.length ≤ n →
      (scrapeByTypeAux g n pages pc req acc tr).rows.length ≤ n := by
  intro pages
  induction pages with
  | nil =>
    intro pc req acc tr h
    simpa [scrapeByTypeAux] using h
  | cons page rest ih =>
    intro pc req acc tr h
    by_cases hg : acc.length < n ∧ pc < maxPages
    · simp only [scrapeByTypeAux, if_pos hg]
      by_cases hpg : page = []
      · simpa [hpg] using h
      · rw [if_neg hpg]
        exact ih _ _ _ _ (processBatch_length_le g n page acc tr hg.1)
    · simp only [scrapeByTypeAux, if_neg hg]
      exact h

theorem scrapeByType_rows_le (g : String) (n : Nat) (pages : List (List Review))
    (tr : Tracker) : (scrapeByType g n pages tr).rows.length ≤ n :=
  scrapeByTypeAux_length_le g n pages 0 0 [] tr (by simp)

theorem mcProcess_length_le (s g : String) (n : Nat) :
    ∀ (cands : List MCand) (acc : List MRow) (tr : Tracker),
      acc.length < max 1 n →
      ((mcProcess s g n cands acc tr).1).length ≤ max 1 n := by
  intro cands
  induction cands with
  | nil =>
    intro acc tr h
    simp only [mcProcess]
    omega
  | cons c cs ih =>
    intro acc tr h
    by_cases h1 : s = "positive" ∧ c.score < 7
    · simp only [mcProcess, if_pos h1]
      exact ih acc tr h
    · rw [mcProcess, if_neg h1]
      by_cases h2 : s = "negative" ∧ 4 < c.score
      · rw [if_pos h2]
        exact ih acc tr h
      · rw [if_neg h2]
        by_cases h3 : c.text.length ≤ 10
        · rw [if_pos h3]
          exact ih acc tr h
        · rw [if_neg h3]
          by_cases h4 : (c.author, g) ∈ tr
          · rw [if_pos h4]
            exact ih acc tr h
          · rw [if_neg h4]
            by_cases h5 : n ≤
              (acc ++ [(⟨c.text, c.score, decide (7 ≤ c.score), c.author⟩ : MRow)]).length
            · rw [if_pos h5]
              simp only [List.length_append, List.length_singleton]
              omega
            · rw [if_neg h5]
              refine ih _ _ ?_
              simp only [List.length_append, List.length_singleton] at h5 ⊢
              omega

/-- C2 counterexample: the Metacritic loop checks the quota cutoff only
after an acceptance, so with a planner value of 0 (`positive_per_game`
when `reviews_per_game = 1`) it still accepts one passing candidate —
exceeding `needed(S, C)`. -/
theorem C2_cex :
    ¬ ((mcScrape "positive" "g" (positivePerGame 1)
        [⟨8, "this game is great fun", "a1"⟩] []).1.length ≤
      positivePerGame 1) := by
  decide

/-- C2 (amended): the Steam collector accepts at most the planned
`needed(S, C)` records per subject/category fetch (and at most
`needed positive + needed negative` per subject), while the Metacritic
loop accepts at most `max(1, needed(S, C))`: when asked for zero it can
still accept one candidate, because its cutoff is only checked after an
append. -/
theorem C2_accept_bounds (g : String) (n : Nat) (pages : List (List Review))
    (tr : Tracker) (t : Nat) (st : ScrapeState) (gp : GamePages)
    (s g2 : String) (m : Nat) (cands : List MCand) (tr2 : Tracker) :
    (scrapeByType g n pages tr).rows.length ≤ n ∧
    (scrapeGame t st gp).1.length ≤
      (calculateNeeded t (st.stats gp.name).1 (st.stats gp.name).2).1.toNat +
      (calculateNeeded t (st.stats gp.name).1 (st.stats gp.name).2).2.toNat ∧
    (mcScrape s g2 m cands tr2).1.length ≤ max 1 m := by
  refine ⟨scrapeByType_rows_le g n pages tr, ?_, ?_⟩
  · unfold scrapeGame
    dsimp only
    split
    · simp
    · simp only [List.length_append]
      have hp : (if 0 < (calculateNeeded t (st.stats gp.name).1 (st.stats gp.name).2).1 then
          scrapeByType gp.name (calculateNeeded t (st.stats gp.name).1 (st.stats gp.name).2).1.toNat
            gp.posPages st.tracker
        else ⟨[], st.tracker, 0, 0⟩).rows.length ≤
          (calculateNeeded t (st.stats gp.name).1 (st.stats gp.name).2).1.toNat := by
        split
        · exact scrapeByType_rows_le _ _ _ _
        · simp
      refine Nat.add_le_add hp ?_
      split
      · exact scrapeByType_rows_le _ _ _ _
      · simp
  · exact mcProcess_length_le s g2 m cands [] tr2
      (lt_of_lt_of_le Nat.zero_lt_one (le_max_left 1 m))

/-! ## Page-request bounds (claim C7) -/

theorem scrapeByTypeAux_requests_le (g : String) (n : Nat) :
    ∀ (pages : List (List Review)) (pc req : Nat) (acc : List Row)
      (tr : Tracker),
      (scrapeByTypeAux g n pages pc req acc tr).requests ≤
        req + (maxPages - pc) := by
  intro pages
  induction pages with
  | nil =>
    intro pc req acc tr
    simp [scrapeByTypeAux]
  | cons page rest ih =>
    intro pc req acc tr
    by_cases hg : acc.length < n ∧ pc < maxPages
    · simp only [scrapeByTypeAux, if_pos hg]
      by_cases hpg : page = []
      · rw [if_pos hpg]
        have := hg.2
        simp only []
        omega
      · rw [if_neg hpg]
        have h1 := ih (pc + 1) (req + 1)
          (processBatch g n page acc tr).1 (processBatch g n page acc tr).2
        have := hg.2
        omega
    · simp only [scrapeByTypeAux, if_neg hg]
      omega

theorem scrapeByTypeAux_requests_le_pages (g : String) (n : Nat) :
    ∀ (pages : List (List Review)) (pc req : Nat) (acc : List Row)
      (tr : Tracker),
      (scrapeByTypeAux g n pages pc req acc tr).requests ≤
        req + pages.length := by
  intro pages
  induction pages with
  | nil =>
    intro pc req acc tr
    simp [scrapeByTypeAux]
  | cons page rest ih =>
    intro pc req acc tr
    by_cases hg : acc.length < n ∧ pc < maxPages
    · simp only [scrapeByTypeAux, if_pos hg]
      by_cases hpg : page = []
      · rw [if_pos hpg]
        simp only [List.length_cons]
        omega
      · rw [if_neg hpg]
        have h1 := ih (pc + 1) (req + 1)
          (processBatch g n page acc tr).1 (processBatch g n page acc tr).2
        simp only [List.length_cons]
        omega
    · simp only [scrapeByTypeAux, if_neg hg]
      omega

theorem fetchReviewsByTypeAux_requests_le_pages (n : Nat) :
    ∀ (pages : List (List Review)) (req : Nat) (acc : List Review),
      (fetchReviewsByTypeAux n pages req acc).2 ≤ req + pages.length := by
  intro pages
  induction pages with
  | nil =>
    intro req acc
    simp [fetchReviewsByTypeAux]
  | cons page rest ih =>
    intro req acc
    by_cases hg : acc.length < n
    · simp only [fetchReviewsByTypeAux, if_pos hg]
      by_cases hpg : page = []
      · rw [if_pos hpg]
        simp only [List.length_cons]
        omega
      · rw [if_neg hpg]
        have h1 := ih (req + 1) (fetchBatchScr1 n page acc)
        simp only [List.length_cons]
        omega
    · simp only [fetchReviewsByTypeAux, if_neg hg]
      omega

/-- C7 counterexample: `steam_scr.py`'s `fetch_reviews_by_type` has no
page-count safety ceiling — on a source serving 51 non-empty pages whose
reviews all fail the length filter, it issues 51 requests, exceeding the
`max_pages = 50` ceiling the claim asserts. -/
theorem C7_cex :
    maxPages <
      (fetchReviewsByType 10 (List.replicate 51 [⟨"u", ['h', 'i'], true⟩])).2 := by
  decide

/-- C7 (amended): `steam_scr3.py`'s page loop issues at most
`max_pages = 50` requests and at most one request per available page of
the source; `steam_scr.py`'s loop has no fixed ceiling — its requests are
bounded only by the number of pages the source serves (it stops on an
empty page, on exhaustion, or when the target is reached). -/
theorem C7_page_request_bounds (g : String) (n : Nat)
    (pages : List (List Review)) (tr : Tracker) (m : Nat)
    (pages2 : List (List Review)) :
    (scrapeByType g n pages tr).requests ≤ maxPages ∧
    (scrapeByType g n pages tr).requests ≤ pages.length ∧
    (fetchReviewsByType m pages2).2 ≤ pages2.length := by
  refine ⟨?_, ?_, ?_⟩
  · have := scrapeByTypeAux_requests_le g n pages 0 0 [] tr
    simpa [scrapeByType] using this
  · have := scrapeByTypeAux_requests_le_pages g n pages 0 0 [] tr
    simpa [scrapeByType] using this
  · have := fetchReviewsByTypeAux_requests_le_pages m pages2 0 []
    simpa [fetchReviewsByType] using this

/-! ## Tracker and row invariants of the Steam collector -/

theorem realPairs_append (l1 l2 : List Row) :
    realPairs (l1 ++ l2) = realPairs l1 ++ realPairs l2 := by
  simp [realPairs]

theorem processBatch_rows_extend (g : String) (n : Nat) :
    ∀ (rs : List Review) (acc : List Row) (tr : Tracker),
      ∃ ext, (processBatch g n rs acc tr).1 = acc ++ ext := by
  intro rs
  induction rs with
  | nil =>
    intro acc tr
    exact ⟨[], by simp [processBatch]⟩
  | cons r rs ih =>
    intro acc tr
    by_cases hd : isDuplicate tr r.userId g
    · simp only [processBatch, hd, if_true]
      exact ih acc tr
    · by_cases hs : shortText r.text
      · simp only [processBatch, hd, hs, Bool.false_eq_true, if_false, if_true]
        exact ih acc tr
      · simp only [processBatch, hd, hs, Bool.false_eq_true, if_false]
        by_cases hn : n ≤ (acc ++ [mkRow g r]).length
        · rw [if_pos hn]
          exact ⟨[mkRow g r], rfl⟩
        · rw [if_neg hn]
          obtain ⟨ext, hext⟩ := ih (acc ++ [mkRow g r]) ((r.userId, g) :: tr)
          exact ⟨[mkRow g r] ++ ext, by rw [hext, List.append_assoc]⟩

theorem processBatch_tracker_mono (g : String) (n : Nat) :
    ∀ (rs : List Review) (acc : List Row) (tr : Tracker),
      ∀ p ∈ tr, p ∈ (processBatch g n rs acc tr).2 := by
  intro rs
  induction rs with
  | nil =>
    intro acc tr p hp
    simpa [processBatch] using hp
  | cons r rs ih =>
    intro acc tr p hp
    by_cases hd : isDuplicate tr r.userId g
    · simp only [processBatch, hd, if_true]
      exact ih acc tr p hp
    · by_cases hs : shortText r.text
      · simp only [processBatch, hd, hs, Bool.false_eq_true, if_false, if_true]
        exact ih acc tr p hp
      · simp only [processBatch, hd, hs, Bool.false_eq_true, if_false]
        by_cases hn : n ≤ (acc ++ [mkRow g r]).length
        · rw [if_pos hn]
          exact List.mem_cons_of_mem _ hp
        · rw [if_neg hn]
          exact ih _ _ p (List.mem_cons_of_mem _ hp)

theorem processBatch_tracker_bound (g : String) (n : Nat) :
    ∀ (rs : List Review) (acc : List Row) (tr : Tracker),
      ∀ p ∈ (processBatch g n rs acc tr).2,
        p ∈ tr ∨ p ∈ rowPairs (processBatch g n rs acc tr).1 := by
  intro rs
  induction rs with
  | nil =>
    intro acc tr p hp
    simp only [processBatch] at hp
    exact Or.inl hp
  | cons r rs ih =>
    intro acc tr p hp
    by_cases hd : isDuplicate tr r.userId g
    · simp only [processBatch, hd, if_true] at hp ⊢
      exact ih acc tr p hp
    · by_cases hs : shortText r.text
      · simp only [processBatch, hd, hs, Bool.false_eq_true, if_false, if_true] at hp ⊢
        exact ih acc tr p hp
      · simp only [processBatch, hd, hs, Bool.false_eq_true, if_false] at hp ⊢
        by_cases hn : n ≤ (acc ++ [mkRow g r]).length
        · rw [if_pos hn] at hp ⊢
          rcases List.mem_cons.mp hp with rfl | hp
          · exact Or.inr (by simp [rowPairs, mkRow])
          · exact Or.inl hp
        · rw [if_neg hn] at hp ⊢
          rcases ih _ _ p hp with hmem | hmem
          · rcases List.mem_cons.mp hmem with rfl | hmem
            · right
              obtain ⟨ext, hext⟩ :=
                processBatch_rows_extend g n rs (acc ++ [mkRow g r]) ((r.userId, g) :: tr)
              rw [hext]
              simp [rowPairs, mkRow]
            · exact Or.inl hmem
          · exact Or.inr hmem

theorem processBatch_complete (g : String) (n : Nat) :
    ∀ (rs : List Review) (acc : List Row) (tr : Tracker),
      (processBatch g n rs acc tr).1.length < n →
      ∀ r ∈ rs, (r.userId, g) ∈ (processBatch g n rs acc tr).2 ∨
        shortText r.text = true := by
  intro rs
  induction rs with
  | nil =>
    intro acc tr _ r hr
    exact absurd hr (List.not_mem_nil r)
  | cons r rs ih =>
    intro acc tr hlen r' hr'
    by_cases hd : isDuplicate tr r.userId g
    · simp only [processBatch, hd, if_true] at hlen ⊢
      rcases List.mem_cons.mp hr' with rfl | hr'
      · left
        refine processBatch_tracker_mono g n rs acc tr _ ?_
        simpa [isDuplicate] using hd
      · exact ih acc tr hlen r' hr'
    · by_cases hs : shortText r.text
      · simp only [processBatch, hd, hs, Bool.false_eq_true, if_false, if_true] at hlen ⊢
        rcases List.mem_cons.mp hr' with rfl | hr'
        · exact Or.inr hs
        · exact ih acc tr hlen r' hr'
      · simp only [processBatch, hd, hs, Bool.false_eq_true, if_false] at hlen ⊢
        by_cases hn : n ≤ (acc ++ [mkRow g r]).length
        · rw [if_pos hn] at hlen
          dsimp only at hlen
          omega
        · rw [if_neg hn] at hlen ⊢
          rcases List.mem_cons.mp hr' with rfl | hr'
          · left
            exact processBatch_tracker_mono g n rs _ _ _ (List.mem_cons_self _ _)
          · exact ih _ _ hlen r' hr'

theorem processBatch_blocked (g : String) (n : Nat) :
    ∀ (rs : List Review) (acc : List Row) (tr : Tracker),
      (∀ r ∈ rs, (r.userId, g) ∈ tr ∨ shortText r.text = true) →
      processBatch g n rs acc tr = (acc, tr) := by
  intro rs
  induction rs with
  | nil =>
    intro acc tr _
    rfl
  | cons r rs ih =>
    intro acc tr h
    by_cases hd : isDuplicate tr r.userId g
    · simp only [processBatch, hd, if_true]
      exact ih acc tr (fun r' hr' => h r' (List.mem_cons_of_mem _ hr'))
    · have hs : shortText r.text = true := by
        rcases h r (List.mem_cons_self _ _) with hmem | hshort
        · exact absurd (by simpa [isDuplicate] using hmem) hd
        · exact hshort
      simp only [processBatch, hd, hs, Bool.false_eq_true, if_false, if_true]
      exact ih acc tr (fun r' hr' => h r' (List.mem_cons_of_mem _ hr'))

theorem processBatch_nodup (g : String) (n : Nat) :
    ∀ (rs : List Review) (acc : List Row) (tr : Tracker) (base : List Row),
      (∀ p ∈ realPairs (base ++ acc), p ∈ tr) →
      (realPairs (base ++ acc)).Nodup →
      (∀ p ∈ realPairs (base ++ (processBatch g n rs acc tr).1),
        p ∈ (processBatch g n rs acc tr).2) ∧
      (realPairs (base ++ (processBatch g n rs acc tr).1)).Nodup := by
  intro rs
  induction rs with
  | nil =>
    intro acc tr base hsub hnd
    exact ⟨hsub, hnd⟩
  | cons r rs ih =>
    intro acc tr base hsub hnd
    by_cases hd : isDuplicate tr r.userId g
    · simp only [processBatch, hd, if_true]
      exact ih acc tr base hsub hnd
    · by_cases hs : shortText r.text
      · simp only [processBatch, hd, hs, Bool.false_eq_true, if_false, if_true]
        exact ih acc tr base hsub hnd
      · simp only [processBatch, hd, hs, Bool.false_eq_true, if_false]
        have hnotin : (r.userId, g) ∉ tr := by
          intro hmem
          exact hd (by simpa [isDuplicate] using hmem)
        have hsplit : realPairs (base ++ (acc ++ [mkRow g r])) =
            realPairs (base ++ acc) ++ realPairs [mkRow g r] := by
          rw [← List.append_assoc, realPairs_append]
        by_cases hna : r.userId = "N/A"
        · have hone : realPairs [mkRow g r] = [] := by
            simp [realPairs, mkRow, hna]
          have hsub' : ∀ p ∈ realPairs (base ++ (acc ++ [mkRow g r])),
              p ∈ (r.userId, g) :: tr := by
            intro p hp
            rw [hsplit, hone, List.append_nil] at hp
            exact List.mem_cons_of_mem _ (hsub p hp)
          have hnd' : (realPairs (base ++ (acc ++ [mkRow g r]))).Nodup := by
            rw [hsplit, hone, List.append_nil]
            exact hnd
          by_cases hn : n ≤ (acc ++ [mkRow g r]).length
          · rw [if_pos hn]
            exact ⟨hsub', hnd'⟩
          · rw [if_neg hn]
            exact ih _ _ base hsub' hnd'
        · have hone : realPairs [mkRow g r] = [(r.userId, g)] := by
            simp [realPairs, mkRow, hna]
          have hsub' : ∀ p ∈ realPairs (base ++ (acc ++ [mkRow g r])),
              p ∈ (r.userId, g) :: tr := by
            intro p hp
            rw [hsplit, hone] at hp
            rcases List.mem_append.mp hp with hp | hp
            · exact List.mem_cons_of_mem _ (hsub p hp)
            · simp only [List.mem_singleton] at hp
              subst hp
              exact List.mem_cons_self _ _
          have hnd' : (realPairs (base ++ (acc ++ [mkRow g r]))).Nodup := by
            rw [hsplit, hone]
            rw [List.nodup_append]
            refine ⟨hnd, List.nodup_singleton _, ?_⟩
            intro p hp hp'
            simp only [List.mem_singleton] at hp'
            subst hp'
            exact hnotin (hsub _ hp)
          by_cases hn : n ≤ (acc ++ [mkRow g r]).length
          · rw [if_pos hn]
            exact ⟨hsub', hnd'⟩
          · rw [if_neg hn]
            exact ih _ _ base hsub' hnd'

theorem scrapeByTypeAux_nodup (g : String) (n : Nat) :
    ∀ (pages : List (List Review)) (pc req : Nat) (acc : List Row)
      (tr : Tracker) (base : List Row),
      (∀ p ∈ realPairs (base ++ acc), p ∈ tr) →
      (realPairs (base ++ acc)).Nodup →
      (∀ p ∈ realPairs (base ++ (scrapeByTypeAux g n pages pc req acc tr).rows),
        p ∈ (scrapeByTypeAux g n pages pc req acc tr).tracker) ∧
      (realPairs (base ++ (scrapeByTypeAux g n pages pc req acc tr).rows)).Nodup := by
  intro pages
  induction pages with
  | nil =>
    intro pc req acc tr base hsub hnd
    exact ⟨hsub, hnd⟩
  | cons page rest ih =>
    intro pc req acc tr base hsub hnd
    by_cases hg : acc.length < n ∧ pc < maxPages
    · simp only [scrapeByTypeAux, if_pos hg]
      by_cases hpg : page = []
      · rw [if_pos hpg]
        exact ⟨hsub, hnd⟩
      · rw [if_neg hpg]
        have hpb := processBatch_nodup g n page acc tr base hsub hnd
        exact ih _ _ _ _ base hpb.1 hpb.2
    · simp only [scrapeByTypeAux, if_neg hg]
      exact ⟨hsub, hnd⟩

theorem scrapeGame_nodup (t : Nat) (st : ScrapeState) (gp : GamePages)
    (base : List Row)
    (hsub : ∀ p ∈ realPairs base, p ∈ st.tracker)
    (hnd : (realPairs base).Nodup) :
    (∀ p ∈ realPairs (base ++ (scrapeGame t st gp).1),
      p ∈ (scrapeGame t st gp).2.tracker) ∧
    (realPairs (base ++ (scrapeGame t st gp).1)).Nodup := by
  unfold scrapeGame
  dsimp only
  set nd := calculateNeeded t (st.stats gp.name).1 (st.stats gp.name).2 with hnddef
  have hbase : ∀ p ∈ realPairs (base ++ []), p ∈ st.tracker := by
    rw [List.append_nil]
    exact hsub
  have hbase2 : (realPairs (base ++ [])).Nodup := by
    rw [List.append_nil]
    exact hnd
  by_cases hskip : nd.1 = 0 ∧ nd.2 = 0
  · rw [if_pos hskip]
    dsimp only
    rw [List.append_nil]
    exact ⟨hsub, hnd⟩
  · rw [if_neg hskip]
    by_cases h1 : 0 < nd.1
    · rw [if_pos h1]
      have hp := scrapeByTypeAux_nodup gp.name nd.1.toNat gp.posPages 0 0 []
        st.tracker base hbase hbase2
      by_cases h2 : 0 < nd.2
      · rw [if_pos h2]
        have hp1 : ∀ p ∈ realPairs ((base ++
            (scrapeByType gp.name nd.1.toNat gp.posPages st.tracker).rows) ++ []),
            p ∈ (scrapeByType gp.name nd.1.toNat gp.posPages st.tracker).tracker := by
          rw [List.append_nil]
          exact hp.1
        have hp2 : (realPairs ((base ++
            (scrapeByType gp.name nd.1.toNat gp.posPages st.tracker).rows) ++ [])).Nodup := by
          rw [List.append_nil]
          exact hp.2
        have hq := scrapeByTypeAux_nodup gp.name nd.2.toNat gp.negPages 0 0 []
          (scrapeByType gp.name nd.1.toNat gp.posPages st.tracker).tracker
          (base ++ (scrapeByType gp.name nd.1.toNat gp.posPages st.tracker).rows)
          hp1 hp2
        dsimp only
        rw [← List.append_assoc]
        exact hq
      · rw [if_neg h2]
        dsimp only
        rw [List.append_nil]
        exact hp
    · rw [if_neg h1]
      by_cases h2 : 0 < nd.2
      · rw [if_pos h2]
        dsimp only
        have hq := scrapeByTypeAux_nodup gp.name nd.2.toNat gp.negPages 0 0 []
          st.tracker base hbase hbase2
        rw [List.nil_append]
        exact hq
      · rw [if_neg h2]
        dsimp only
        rw [List.append_nil, List.append_nil]
        exact ⟨hsub, hnd⟩

theorem runAux_nodup (t : Nat) :
    ∀ (L : List GamePages) (st : ScrapeState) (base : List Row),
      (∀ p ∈ realPairs base, p ∈ st.tracker) →
      (realPairs base).Nodup →
      (∀ p ∈ realPairs (base ++ (runAux t L st).1),
        p ∈ (runAux t L st).2.tracker) ∧
      (realPairs (base ++ (runAux t L st).1)).Nodup := by
  intro L
  induction L with
  | nil =>
    intro st base hsub hnd
    show (∀ p ∈ realPairs (base ++ []), p ∈ st.tracker) ∧
      (realPairs (base ++ [])).Nodup
    rw [List.append_nil]
    exact ⟨hsub, hnd⟩
  | cons gp rest ih =>
    intro st base hsub hnd
    simp only [runAux]
    have hp := scrapeGame_nodup t st gp base hsub hnd
    have hq := ih (scrapeGame t st gp).2 (base ++ (scrapeGame t st gp).1) hp.1 hp.2
    rw [← List.append_assoc]
    exact hq

/-! ## Further page-loop invariants (claim C4) -/

theorem rowPairs_append (l1 l2 : List Row) :
    rowPairs (l1 ++ l2) = rowPairs l1 ++ rowPairs l2 := by
  simp [rowPairs]

theorem scrapeByTypeAux_rows_extend (g : String) (n : Nat) :
    ∀ (pages : List (List Review)) (pc req : Nat) (acc : List Row)
      (tr : Tracker),
      ∃ ext, (scrapeByTypeAux g n pages pc req acc tr).rows = acc ++ ext := by
  intro pages
  induction pages with
  | nil =>
    intro pc req acc tr
    exact ⟨[], by simp [scrapeByTypeAux]⟩
  | cons page rest ih =>
    intro pc req acc tr
    by_cases hg : acc.length < n ∧ pc < maxPages
    · simp only [scrapeByTypeAux, if_pos hg]
      by_cases hpg : page = []
      · rw [if_pos hpg]
        exact ⟨[], by simp⟩
      · rw [if_neg hpg]
        obtain ⟨e1, he1⟩ := processBatch_rows_extend g n page acc tr
        obtain ⟨e2, he2⟩ := ih (pc + 1) (req + 1)
          (processBatch g n page acc tr).1 (processBatch g n page acc tr).2
        exact ⟨e1 ++ e2, by rw [he2, he1, List.append_assoc]⟩
    · simp only [scrapeByTypeAux, if_neg hg]
      exact ⟨[], by simp⟩

theorem scrapeByTypeAux_tracker_mono (g : String) (n : Nat) :
    ∀ (pages : List (List Review)) (pc req : Nat) (acc : List Row)
      (tr : Tracker), ∀ p ∈ tr,
      p ∈ (scrapeByTypeAux g n pages pc req acc tr).tracker := by
  intro pages
  induction pages with
  | nil =>
    intro pc req acc tr p hp
    simpa [scrapeByTypeAux] using hp
  | cons page rest ih =>
    intro pc req acc tr p hp
    by_cases hg : acc.length < n ∧ pc < maxPages
    · simp only [scrapeByTypeAux, if_pos hg]
      by_cases hpg : page = []
      · rw [if_pos hpg]
        exact hp
      · rw [if_neg hpg]
        exact ih _ _ _ _ p (processBatch_tracker_mono g n page acc tr p hp)
    · simp only [scrapeByTypeAux, if_neg hg]
      exact hp

theorem processBatch_rows_mem (g : String) (n : Nat) :
    ∀ (rs : List Review) (acc : List Row) (tr : Tracker),
      ∀ row ∈ (processBatch g n rs acc tr).1,
        row ∈ acc ∨ ∃ r ∈ rs, row = mkRow g r := by
  intro rs
  induction rs with
  | nil =>
    intro acc tr row hrow
    exact Or.inl (by simpa [processBatch] using hrow)
  | cons r rs ih =>
    intro acc tr row hrow
    by_cases hd : isDuplicate tr r.userId g
    · simp only [processBatch, hd, if_true] at hrow
      rcases ih acc tr row hrow with h | ⟨r', hr', hrw⟩
      · exact Or.inl h
      · exact Or.inr ⟨r', List.mem_cons_of_mem _ hr', hrw⟩
    · by_cases hs : shortText r.text
      · simp only [processBatch, hd, hs, Bool.false_eq_true, if_false, if_true] at hrow
        rcases ih acc tr row hrow with h | ⟨r', hr', hrw⟩
        · exact Or.inl h
        · exact Or.inr ⟨r', List.mem_cons_of_mem _ hr', hrw⟩
      · simp only [processBatch, hd, hs, Bool.false_eq_true, if_false] at hrow
        by_cases hn : n ≤ (acc ++ [mkRow g r]).length
        · rw [if_pos hn] at hrow
          dsimp only at hrow
          rcases List.mem_append.mp hrow with h | h
          · exact Or.inl h
          · simp only [List.mem_singleton] at h
            exact Or.inr ⟨r, List.mem_cons_self _ _, h⟩
        · rw [if_neg hn] at hrow
          rcases ih _ _ row hrow with h | ⟨r', hr', hrw⟩
          · rcases List.mem_append.mp h with h | h
            · exact Or.inl h
            · simp only [List.mem_singleton] at h
              exact Or.inr ⟨r, List.mem_cons_self _ _, h⟩
          · exact Or.inr ⟨r', List.mem_cons_of_mem _ hr', hrw⟩

theorem scrapeByTypeAux_rows_mem (g : String) (n : Nat) :
    ∀ (pages : List (List Review)) (pc req : Nat) (acc : List Row)
      (tr : Tracker),
      ∀ row ∈ (scrapeByTypeAux g n pages pc req acc tr).rows,
        row ∈ acc ∨ ∃ page ∈ pages, ∃ r ∈ page, row = mkRow g r := by
  intro pages
  induction pages with
  | nil =>
    intro pc req acc tr row hrow
    exact Or.inl (by simpa [scrapeByTypeAux] using hrow)
  | cons page rest ih =>
    intro pc req acc tr row hrow
    by_cases hg : acc.length < n ∧ pc < maxPages
    · simp only [scrapeByTypeAux, if_pos hg] at hrow
      by_cases hpg : page = []
      · rw [if_pos hpg] at hrow
        exact Or.inl hrow
      · rw [if_neg hpg] at hrow
        rcases ih _ _ _ _ row hrow with h | ⟨page', hpage', r, hr, hrw⟩
        · rcases processBatch_rows_mem g n page acc tr row h with h2 | ⟨r, hr, hrw⟩
          · exact Or.inl h2
          · exact Or.inr ⟨page, List.mem_cons_self _ _, r, hr, hrw⟩
        · exact Or.inr ⟨page', List.mem_cons_of_mem _ hpage', r, hr, hrw⟩
    · simp only [scrapeByTypeAux, if_neg hg] at hrow
      exact Or.inl hrow

theorem scrapeByTypeAux_tracker_bound (g : String) (n : Nat) :
    ∀ (pages : List (List Review)) (pc req : Nat) (acc : List Row)
      (tr : Tracker),
      ∀ p ∈ (scrapeByTypeAux g n pages pc req acc tr).tracker,
        p ∈ tr ∨ p ∈ rowPairs (scrapeByTypeAux g n pages pc req acc tr).rows := by
  intro pages
  induction pages with
  | nil =>
    intro pc req acc tr p hp
    exact Or.inl (by simpa [scrapeByTypeAux] using hp)
  | cons page rest ih =>
    intro pc req acc tr p hp
    by_cases hg : acc.length < n ∧ pc < maxPages
    · simp only [scrapeByTypeAux, if_pos hg] at hp ⊢
      by_cases hpg : page = []
      · rw [if_pos hpg] at hp ⊢
        exact Or.inl hp
      · rw [if_neg hpg] at hp ⊢
        rcases ih _ _ _ _ p hp with hmem | hmem
        · rcases processBatch_tracker_bound g n page acc tr p hmem with h2 | h2
          · exact Or.inl h2
          · right
            obtain ⟨ext, hext⟩ := scrapeByTypeAux_rows_extend g n rest (pc + 1)
              (req + 1) (processBatch g n page acc tr).1 (processBatch g n page acc tr).2
            rw [hext, rowPairs_append]
            exact List.mem_append_left _ h2
        · exact Or.inr hmem
    · simp only [scrapeByTypeAux, if_neg hg] at hp ⊢
      exact Or.inl hp

/-- Two-run simulation at the page-loop level: if the first run's fetch
did not reach its target (so it fully processed every page it saw), and
the second run's tracker contains everything the first run's final
tracker holds, then the second run over the same pages accepts nothing
and leaves its tracker unchanged. -/
theorem scrapeByTypeAux_idem (g : String) (n1 n2 : Nat) (tr2 : Tracker) :
    ∀ (pages : List (List Review)) (pc req1 req2 : Nat) (acc1 : List Row)
      (tr1 : Tracker),
      (scrapeByTypeAux g n1 pages pc req1 acc1 tr1).rows.length < n1 →
      (∀ p ∈ (scrapeByTypeAux g n1 pages pc req1 acc1 tr1).tracker, p ∈ tr2) →
      (scrapeByTypeAux g n2 pages pc req2 [] tr2).rows = [] ∧
      (scrapeByTypeAux g n2 pages pc req2 [] tr2).tracker = tr2 := by
  intro pages
  induction pages with
  | nil =>
    intro pc req1 req2 acc1 tr1 _ _
    exact ⟨rfl, rfl⟩
  | cons page rest ih =>
    intro pc req1 req2 acc1 tr1 hlen hsub
    have hacc1 : acc1.length < n1 := by
      by_contra hge
      have hg : ¬ (acc1.length < n1 ∧ pc < maxPages) := fun h => hge h.1
      rw [show (scrapeByTypeAux g n1 (page :: rest) pc req1 acc1 tr1).rows = acc1 by
        simp [scrapeByTypeAux, hg]] at hlen
      omega
    by_cases hpc : pc < maxPages
    · have hg1 : acc1.length < n1 ∧ pc < maxPages := ⟨hacc1, hpc⟩
      by_cases hn2 : 0 < n2
      · have hg2 : ([] : List Row).length < n2 ∧ pc < maxPages :=
          ⟨by simpa using hn2, hpc⟩
        by_cases hpg : page = []
        · constructor <;> simp [scrapeByTypeAux, hg2, hpg, hn2, hpc]
        · have hrun1 : scrapeByTypeAux g n1 (page :: rest) pc req1 acc1 tr1 =
              scrapeByTypeAux g n1 rest (pc + 1) (req1 + 1)
                (processBatch g n1 page acc1 tr1).1
                (processBatch g n1 page acc1 tr1).2 := by
            simp only [scrapeByTypeAux, if_pos hg1, if_neg hpg]
          rw [hrun1] at hlen hsub
          have hpblen : (processBatch g n1 page acc1 tr1).1.length < n1 := by
            obtain ⟨ext, hext⟩ := scrapeByTypeAux_rows_extend g n1 rest (pc + 1)
              (req1 + 1) (processBatch g n1 page acc1 tr1).1
              (processBatch g n1 page acc1 tr1).2
            rw [hext, List.length_append] at hlen
            omega
          have hblocked : ∀ r ∈ page,
              (r.userId, g) ∈ tr2 ∨ shortText r.text = true := by
            intro r hr
            rcases processBatch_complete g n1 page acc1 tr1 hpblen r hr with hmem | hshort
            · exact Or.inl (hsub _ (scrapeByTypeAux_tracker_mono g n1 rest (pc + 1)
                (req1 + 1) _ _ _ hmem))
            · exact Or.inr hshort
          have hpb2 : processBatch g n2 page [] tr2 = ([], tr2) :=
            processBatch_blocked g n2 page [] tr2 hblocked
          have hrun2 : scrapeByTypeAux g n2 (page :: rest) pc req2 [] tr2 =
              scrapeByTypeAux g n2 rest (pc + 1) (req2 + 1) [] tr2 := by
            simp only [scrapeByTypeAux, if_pos hg2, if_neg hpg, hpb2]
          rw [hrun2]
          exact ih (pc + 1) (req1 + 1) (req2 + 1) _ _ hlen hsub
      · constructor <;> simp [scrapeByTypeAux, hn2]
    · constructor <;> simp [scrapeByTypeAux, hpc]

/-! ## Per-game structure of `scrape_game` (claim C4) -/

theorem scrapeGame_eq (target : Nat) (st : ScrapeState) (gp : GamePages) :
    scrapeGame target st gp =
      if (sgNeeded target st gp).1 = 0 ∧ (sgNeeded target st gp).2 = 0 then
        ([], st)
      else
        ((sgPosRes target st gp).rows ++ (sgNegRes target st gp).rows,
          ⟨(sgNegRes target st gp).tracker,
            fun x =>
              if x = gp.name then
                ((st.stats gp.name).1 + (sgPosRes target st gp).rows.length,
                 (st.stats gp.name).2 + (sgNegRes target st gp).rows.length)
              else st.stats x⟩) := rfl

theorem posCount_append (l1 l2 : List Row) (g : String) :
    posCount (l1 ++ l2) g = posCount l1 g + posCount l2 g := by
  simp [posCount, List.filter_append]

theorem negCount_append (l1 l2 : List Row) (g : String) :
    negCount (l1 ++ l2) g = negCount l1 g + negCount l2 g := by
  simp [negCount, List.filter_append]

theorem posCount_eq_length (g : String) :
    ∀ l : List Row, (∀ r ∈ l, r.gameName = g ∧ r.votedUp = true) →
      posCount l g = l.length := by
  intro l
  induction l with
  | nil => intro _; rfl
  | cons r l ih =>
    intro h
    have hr := h r (List.mem_cons_self _ _)
    have ih' := ih (fun x hx => h x (List.mem_cons_of_mem _ hx))
    simp only [posCount, List.filter_cons, hr.1, hr.2, and_self, decide_True, if_true,
      List.length_cons] at ih' ⊢
    omega

theorem negCount_eq_length (g : String) :
    ∀ l : List Row, (∀ r ∈ l, r.gameName = g ∧ r.votedUp = false) →
      negCount l g = l.length := by
  intro l
  induction l with
  | nil => intro _; rfl
  | cons r l ih =>
    intro h
    have hr := h r (List.mem_cons_self _ _)
    have ih' := ih (fun x hx => h x (List.mem_cons_of_mem _ hx))
    simp only [negCount, List.filter_cons, hr.1, hr.2, and_self, decide_True, if_true,
      List.length_cons] at ih' ⊢
    omega

theorem posCount_eq_zero_of_neg (g : String) :
    ∀ l : List Row, (∀ r ∈ l, r.votedUp = false) → posCount l g = 0 := by
  intro l
  induction l with
  | nil => intro _; rfl
  | cons r l ih =>
    intro h
    have hr := h r (List.mem_cons_self _ _)
    have ih' := ih (fun x hx => h x (List.mem_cons_of_mem _ hx))
    simp only [posCount, List.filter_cons, hr] at ih' ⊢
    simpa using ih'

theorem negCount_eq_zero_of_pos (g : String) :
    ∀ l : List Row, (∀ r ∈ l, r.votedUp = true) → negCount l g = 0 := by
  intro l
  induction l with
  | nil => intro _; rfl
  | cons r l ih =>
    intro h
    have hr := h r (List.mem_cons_self _ _)
    have ih' := ih (fun x hx => h x (List.mem_cons_of_mem _ hx))
    simp only [negCount, List.filter_cons, hr] at ih' ⊢
    simpa using ih'

theorem posCount_eq_zero_of_names (x g : String) (hx : x ≠ g) :
    ∀ l : List Row, (∀ r ∈ l, r.gameName = g) → posCount l x = 0 := by
  intro l
  induction l with
  | nil => intro _; rfl
  | cons r l ih =>
    intro h
    have hr := h r (List.mem_cons_self _ _)
    have hne : ¬ (r.gameName = x) := by
      rw [hr]
      exact fun hc => hx hc.symm
    have ih' := ih (fun y hy => h y (List.mem_cons_of_mem _ hy))
    simp only [posCount, List.filter_cons, hne] at ih' ⊢
    simpa using ih'

theorem negCount_eq_zero_of_names (x g : String) (hx : x ≠ g) :
    ∀ l : List Row, (∀ r ∈ l, r.gameName = g) → negCount l x = 0 := by
  intro l
  induction l with
  | nil => intro _; rfl
  | cons r l ih =>
    intro h
    have hr := h r (List.mem_cons_self _ _)
    have hne : ¬ (r.gameName = x) := by
      rw [hr]
      exact fun hc => hx hc.symm
    have ih' := ih (fun y hy => h y (List.mem_cons_of_mem _ hy))
    simp only [negCount, List.filter_cons, hne] at ih' ⊢
    simpa using ih'

theorem sgPosRes_rows_mem (target : Nat) (st : ScrapeState) (gp : GamePages) :
    ∀ row ∈ (sgPosRes target st gp).rows,
      ∃ page ∈ gp.posPages, ∃ r ∈ page, row = mkRow gp.name r := by
  intro row hrow
  unfold sgPosRes at hrow
  split at hrow
  · rcases scrapeByTypeAux_rows_mem gp.name _ gp.posPages 0 0 [] st.tracker
      row hrow with h | h
    · exact absurd h (List.not_mem_nil row)
    · exact h
  · exact absurd hrow (List.not_mem_nil row)

theorem sgNegRes_rows_mem (target : Nat) (st : ScrapeState) (gp : GamePages) :
    ∀ row ∈ (sgNegRes target st gp).rows,
      ∃ page ∈ gp.negPages, ∃ r ∈ page, row = mkRow gp.name r := by
  intro row hrow
  unfold sgNegRes at hrow
  split at hrow
  · rcases scrapeByTypeAux_rows_mem gp.name _ gp.negPages 0 0 []
      (sgPosRes target st gp).tracker row hrow with h | h
    · exact absurd h (List.not_mem_nil row)
    · exact h
  · exact absurd hrow (List.not_mem_nil row)

theorem sgPosRes_tracker_mono (target : Nat) (st : ScrapeState) (gp : GamePages) :
    ∀ p ∈ st.tracker, p ∈ (sgPosRes target st gp).tracker := by
  intro p hp
  unfold sgPosRes
  split
  · exact scrapeByTypeAux_tracker_mono gp.name _ gp.posPages 0 0 [] st.tracker p hp
  · exact hp

theorem sgNegRes_tracker_mono (target : Nat) (st : ScrapeState) (gp : GamePages) :
    ∀ p ∈ (sgPosRes target st gp).tracker, p ∈ (sgNegRes target st gp).tracker := by
  intro p hp
  unfold sgNegRes
  split
  · exact scrapeByTypeAux_tracker_mono gp.name _ gp.negPages 0 0 [] _ p hp
  · exact hp

theorem sgPosRes_tracker_bound (target : Nat) (st : ScrapeState) (gp : GamePages) :
    ∀ p ∈ (sgPosRes target st gp).tracker,
      p ∈ st.tracker ∨ p ∈ rowPairs (sgPosRes target st gp).rows := by
  intro p hp
  unfold sgPosRes at hp ⊢
  split at hp
  · rename_i h
    rw [if_pos h]
    exact scrapeByTypeAux_tracker_bound gp.name _ gp.posPages 0 0 [] st.tracker p hp
  · exact Or.inl hp

theorem sgNegRes_tracker_bound (target : Nat) (st : ScrapeState) (gp : GamePages) :
    ∀ p ∈ (sgNegRes target st gp).tracker,
      p ∈ (sgPosRes target st gp).tracker ∨
        p ∈ rowPairs (sgNegRes target st gp).rows := by
  intro p hp
  unfold sgNegRes at hp ⊢
  split at hp
  · rename_i h
    rw [if_pos h]
    exact scrapeByTypeAux_tracker_bound gp.name _ gp.negPages 0 0 [] _ p hp
  · exact Or.inl hp

theorem sgPosRes_rows_le (target : Nat) (st : ScrapeState) (gp : GamePages) :
    (sgPosRes target st gp).rows.length ≤ (sgNeeded target st gp).1.toNat := by
  unfold sgPosRes
  split
  · exact scrapeByType_rows_le _ _ _ _
  · simp

theorem sgNegRes_rows_le (target : Nat) (st : ScrapeState) (gp : GamePages) :
    (sgNegRes target st gp).rows.length ≤ (sgNeeded target st gp).2.toNat := by
  unfold sgNegRes
  split
  · exact scrapeByType_rows_le _ _ _ _
  · simp

theorem scrapeGame_tracker_mono (target : Nat) (st : ScrapeState) (gp : GamePages) :
    ∀ p ∈ st.tracker, p ∈ (scrapeGame target st gp).2.tracker := by
  intro p hp
  rw [scrapeGame_eq]
  split
  · exact hp
  · exact sgNegRes_tracker_mono target st gp p (sgPosRes_tracker_mono target st gp p hp)

theorem scrapeGame_tracker_bound (target : Nat) (st : ScrapeState) (gp : GamePages) :
    ∀ p ∈ (scrapeGame target st gp).2.tracker,
      p ∈ st.tracker ∨ p ∈ rowPairs (scrapeGame target st gp).1 := by
  intro p hp
  rw [scrapeGame_eq] at hp ⊢
  split at hp
  · rename_i h
    rw [if_pos h]
    exact Or.inl hp
  · rename_i h
    rw [if_neg h]
    dsimp only at hp ⊢
    rcases sgNegRes_tracker_bound target st gp p hp with h2 | h2
    · rcases sgPosRes_tracker_bound target st gp p h2 with h3 | h3
      · exact Or.inl h3
      · right
        rw [rowPairs_append]
        exact List.mem_append_left _ h3
    · right
      rw [rowPairs_append]
      exact List.mem_append_right _ h2

theorem scrapeGame_rows_mem (target : Nat) (st : ScrapeState) (gp : GamePages) :
    ∀ row ∈ (scrapeGame target st gp).1,
      ∃ page, (page ∈ gp.posPages ∨ page ∈ gp.negPages) ∧
        ∃ r ∈ page, row = mkRow gp.name r := by
  intro row hrow
  rw [scrapeGame_eq] at hrow
  split at hrow
  · exact absurd hrow (List.not_mem_nil row)
  · dsimp only at hrow
    rcases List.mem_append.mp hrow with h | h
    · obtain ⟨page, hpage, r, hr, hrw⟩ := sgPosRes_rows_mem target st gp row h
      exact ⟨page, Or.inl hpage, r, hr, hrw⟩
    · obtain ⟨page, hpage, r, hr, hrw⟩ := sgNegRes_rows_mem target st gp row h
      exact ⟨page, Or.inr hpage, r, hr, hrw⟩

theorem sgPosRes_rows_all (target : Nat) (st : ScrapeState) (gp : GamePages)
    (hp : ∀ page ∈ gp.posPages, ∀ r ∈ page, r.votedUp = true) :
    ∀ row ∈ (sgPosRes target st gp).rows,
      row.gameName = gp.name ∧ row.votedUp = true := by
  intro row hrow
  obtain ⟨page, hpage, r, hr, rfl⟩ := sgPosRes_rows_mem target st gp row hrow
  exact ⟨rfl, hp page hpage r hr⟩

theorem sgNegRes_rows_all (target : Nat) (st : ScrapeState) (gp : GamePages)
    (hn : ∀ page ∈ gp.negPages, ∀ r ∈ page, r.votedUp = false) :
    ∀ row ∈ (sgNegRes target st gp).rows,
      row.gameName = gp.name ∧ row.votedUp = false := by
  intro row hrow
  obtain ⟨page, hpage, r, hr, rfl⟩ := sgNegRes_rows_mem target st gp row hrow
  exact ⟨rfl, hn page hpage r hr⟩

/-- `scrape_game` updates `game_stats` by exactly the per-category counts
of its newly accepted records, provided the source's positive/negative
listings carry the matching `voted_up` flag. -/
theorem scrapeGame_stats (target : Nat) (st : ScrapeState) (gp : GamePages)
    (hp : ∀ page ∈ gp.posPages, ∀ r ∈ page, r.votedUp = true)
    (hn : ∀ page ∈ gp.negPages, ∀ r ∈ page, r.votedUp = false) :
    ∀ x, (scrapeGame target st gp).2.stats x =
      ((st.stats x).1 + posCount (scrapeGame target st gp).1 x,
       (st.stats x).2 + negCount (scrapeGame target st gp).1 x) := by
  have hPall := sgPosRes_rows_all target st gp hp
  have hNall := sgNegRes_rows_all target st gp hn
  intro x
  rw [scrapeGame_eq]
  split
  · simp [posCount, negCount]
  · dsimp only
    by_cases hx : x = gp.name
    · subst hx
      rw [if_pos rfl]
      have h1 : posCount ((sgPosRes target st gp).rows ++
          (sgNegRes target st gp).rows) gp.name =
          (sgPosRes target st gp).rows.length := by
        rw [posCount_append, posCount_eq_length gp.name _ hPall,
          posCount_eq_zero_of_neg gp.name _ (fun r hr => (hNall r hr).2),
          Nat.add_zero]
      have h2 : negCount ((sgPosRes target st gp).rows ++
          (sgNegRes target st gp).rows) gp.name =
          (sgNegRes target st gp).rows.length := by
        rw [negCount_append, negCount_eq_zero_of_pos gp.name _
            (fun r hr => (hPall r hr).2),
          negCount_eq_length gp.name _ hNall, Nat.zero_add]
      rw [h1, h2]
    · rw [if_neg hx]
      have hnames : ∀ row ∈ (sgPosRes target st gp).rows ++
          (sgNegRes target st gp).rows, row.gameName = gp.name := by
        intro row hrow
        rcases List.mem_append.mp hrow with h | h
        · exact (hPall row h).1
        · exact (hNall row h).1
      rw [posCount_eq_zero_of_names x gp.name hx _ hnames,
        negCount_eq_zero_of_names x gp.name hx _ hnames]
      simp

/-- Per-game two-run simulation: with the second run's current count for
the game equal to the first run's count plus what the first run accepted
for it (plus any later contributions `B`, `C` for the same name), and the
second run's tracker containing the first run's final one, the second
run's `scrape_game` accepts nothing and keeps its tracker. -/
theorem scrapeGame_idem (target : Nat) (st1 : ScrapeState) (gp : GamePages)
    (tr2 : Tracker) (stats2 : String → Nat × Nat) (B C : Nat)
    (hp : ∀ page ∈ gp.posPages, ∀ r ∈ page, r.votedUp = true)
    (hn : ∀ page ∈ gp.negPages, ∀ r ∈ page, r.votedUp = false)
    (hcur : stats2 gp.name =
      ((st1.stats gp.name).1 + posCount (scrapeGame target st1 gp).1 gp.name + B,
       (st1.stats gp.name).2 + negCount (scrapeGame target st1 gp).1 gp.name + C))
    (htr : ∀ p ∈ (scrapeGame target st1 gp).2.tracker, p ∈ tr2) :
    (scrapeGame target ⟨tr2, stats2⟩ gp).1 = [] ∧
    (scrapeGame target ⟨tr2, stats2⟩ gp).2.tracker = tr2 := by
  have hnd1fst : (sgNeeded target st1 gp).1 =
      max 0 (((target / 2 : Nat) : Int) - ((st1.stats gp.name).1 : Int)) := rfl
  have hnd1snd : (sgNeeded target st1 gp).2 =
      max 0 (((target / 2 : Nat) : Int) - ((st1.stats gp.name).2 : Int)) := rfl
  have hnd2fst : (sgNeeded target ⟨tr2, stats2⟩ gp).1 =
      max 0 (((target / 2 : Nat) : Int) - ((stats2 gp.name).1 : Int)) := rfl
  have hnd2snd : (sgNeeded target ⟨tr2, stats2⟩ gp).2 =
      max 0 (((target / 2 : Nat) : Int) - ((stats2 gp.name).2 : Int)) := rfl
  by_cases hskip1 : (sgNeeded target st1 gp).1 = 0 ∧ (sgNeeded target st1 gp).2 = 0
  · have hrows1 : (scrapeGame target st1 gp).1 = [] := by
      rw [scrapeGame_eq, if_pos hskip1]
    rw [hrows1] at hcur
    have hzero : posCount ([] : List Row) gp.name = 0 := rfl
    have hzero2 : negCount ([] : List Row) gp.name = 0 := rfl
    rw [hzero, hzero2] at hcur
    have h1 := hskip1.1
    have h2 := hskip1.2
    rw [hnd1fst] at h1
    rw [hnd1snd] at h2
    have h21 : (sgNeeded target ⟨tr2, stats2⟩ gp).1 = 0 := by
      rw [hnd2fst, hcur]
      dsimp only
      omega
    have h22 : (sgNeeded target ⟨tr2, stats2⟩ gp).2 = 0 := by
      rw [hnd2snd, hcur]
      dsimp only
      omega
    rw [scrapeGame_eq, if_pos ⟨h21, h22⟩]
    exact ⟨rfl, rfl⟩
  · have hrows1 : (scrapeGame target st1 gp).1 =
        (sgPosRes target st1 gp).rows ++ (sgNegRes target st1 gp).rows := by
      rw [scrapeGame_eq, if_neg hskip1]
    have hs1 := scrapeGame_stats target st1 gp hp hn gp.name
    have hs2 : (scrapeGame target st1 gp).2.stats gp.name =
        ((st1.stats gp.name).1 + (sgPosRes target st1 gp).rows.length,
         (st1.stats gp.name).2 + (sgNegRes target st1 gp).rows.length) := by
      rw [scrapeGame_eq, if_neg hskip1]
      dsimp only
      rw [if_pos rfl]
    have hcnt : posCount (scrapeGame target st1 gp).1 gp.name =
        (sgPosRes target st1 gp).rows.length ∧
        negCount (scrapeGame target st1 gp).1 gp.name =
        (sgNegRes target st1 gp).rows.length := by
      have hq := hs1.symm.trans hs2
      rw [Prod.mk.injEq] at hq
      omega
    have hcurP : (stats2 gp.name).1 =
        (st1.stats gp.name).1 + (sgPosRes target st1 gp).rows.length + B := by
      rw [hcur]
      dsimp only
      rw [hcnt.1]
    have hcurN : (stats2 gp.name).2 =
        (st1.stats gp.name).2 + (sgNegRes target st1 gp).rows.length + C := by
      rw [hcur]
      dsimp only
      rw [hcnt.2]
    have hposres2 : (sgPosRes target ⟨tr2, stats2⟩ gp).rows = [] ∧
        (sgPosRes target ⟨tr2, stats2⟩ gp).tracker = tr2 := by
      unfold sgPosRes
      by_cases h2p : 0 < (sgNeeded target ⟨tr2, stats2⟩ gp).1
      · rw [if_pos h2p]
        have hx := h2p
        rw [hnd2fst, hcurP] at hx
        have h1p : 0 < (sgNeeded target st1 gp).1 := by
          rw [hnd1fst]
          omega
        have hP1 : sgPosRes target st1 gp =
            scrapeByType gp.name (sgNeeded target st1 gp).1.toNat gp.posPages
              st1.tracker := by
          unfold sgPosRes
          rw [if_pos h1p]
        have hlen : (scrapeByType gp.name (sgNeeded target st1 gp).1.toNat
            gp.posPages st1.tracker).rows.length < (sgNeeded target st1 gp).1.toNat := by
          rw [← hP1, hnd1fst]
          omega
        have htrsub : ∀ p ∈ (scrapeByType gp.name (sgNeeded target st1 gp).1.toNat
            gp.posPages st1.tracker).tracker, p ∈ tr2 := by
          intro p hp2
          apply htr
          have hm1 : p ∈ (sgPosRes target st1 gp).tracker := by
            rw [hP1]
            exact hp2
          have hm2 := sgNegRes_tracker_mono target st1 gp p hm1
          rw [scrapeGame_eq, if_neg hskip1]
          exact hm2
        exact scrapeByTypeAux_idem gp.name (sgNeeded target st1 gp).1.toNat
          (sgNeeded target ⟨tr2, stats2⟩ gp).1.toNat tr2 gp.posPages 0 0 0 []
          st1.tracker hlen htrsub
      · rw [if_neg h2p]
        exact ⟨rfl, rfl⟩
    have hnegres2 : (sgNegRes target ⟨tr2, stats2⟩ gp).rows = [] ∧
        (sgNegRes target ⟨tr2, stats2⟩ gp).tracker = tr2 := by
      unfold sgNegRes
      rw [hposres2.2]
      by_cases h2n : 0 < (sgNeeded target ⟨tr2, stats2⟩ gp).2
      · rw [if_pos h2n]
        have hx := h2n
        rw [hnd2snd, hcurN] at hx
        have h1n : 0 < (sgNeeded target st1 gp).2 := by
          rw [hnd1snd]
          omega
        have hN1 : sgNegRes target st1 gp =
            scrapeByType gp.name (sgNeeded target st1 gp).2.toNat gp.negPages
              (sgPosRes target st1 gp).tracker := by
          unfold sgNegRes
          rw [if_pos h1n]
        have hlen : (scrapeByType gp.name (sgNeeded target st1 gp).2.toNat
            gp.negPages (sgPosRes target st1 gp).tracker).rows.length <
            (sgNeeded target st1 gp).2.toNat := by
          rw [← hN1, hnd1snd]
          omega
        have htrsub : ∀ p ∈ (scrapeByType gp.name (sgNeeded target st1 gp).2.toNat
            gp.negPages (sgPosRes target st1 gp).tracker).tracker, p ∈ tr2 := by
          intro p hp2
          apply htr
          have hm1 : p ∈ (sgNegRes target st1 gp).tracker := by
            rw [hN1]
            exact hp2
          rw [scrapeGame_eq, if_neg hskip1]
          exact hm1
        exact scrapeByTypeAux_idem gp.name (sgNeeded target st1 gp).2.toNat
          (sgNeeded target ⟨tr2, stats2⟩ gp).2.toNat tr2 gp.negPages 0 0 0 []
          (sgPosRes target st1 gp).tracker hlen htrsub
      · rw [if_neg h2n]
        exact ⟨rfl, rfl⟩
    by_cases hskip2 : (sgNeeded target ⟨tr2, stats2⟩ gp).1 = 0 ∧
        (sgNeeded target ⟨tr2, stats2⟩ gp).2 = 0
    · rw [scrapeGame_eq, if_pos hskip2]
      exact ⟨rfl, rfl⟩
    · rw [scrapeGame_eq, if_neg hskip2]
      dsimp only
      rw [hposres2.1, hnegres2.1, hnegres2.2]
      exact ⟨rfl, rfl⟩

/-! ## Run-level invariants and idempotence (claim C4) -/

theorem runAux_cons (target : Nat) (gp : GamePages) (rest : List GamePages)
    (st : ScrapeState) :
    runAux target (gp :: rest) st =
      ((scrapeGame target st gp).1 ++
        (runAux target rest (scrapeGame target st gp).2).1,
       (runAux target rest (scrapeGame target st gp).2).2) := rfl

theorem runAux_tracker_mono (target : Nat) :
    ∀ (L : List GamePages) (st : ScrapeState),
      ∀ p ∈ st.tracker, p ∈ (runAux target L st).2.tracker := by
  intro L
  induction L with
  | nil =>
    intro st p hp
    exact hp
  | cons gp rest ih =>
    intro st p hp
    rw [runAux_cons]
    exact ih _ p (scrapeGame_tracker_mono target st gp p hp)

theorem runAux_tracker_bound (target : Nat) :
    ∀ (L : List GamePages) (st : ScrapeState),
      ∀ p ∈ (runAux target L st).2.tracker,
        p ∈ st.tracker ∨ p ∈ rowPairs (runAux target L st).1 := by
  intro L
  induction L with
  | nil =>
    intro st p hp
    exact Or.inl hp
  | cons gp rest ih =>
    intro st p hp
    rw [runAux_cons] at hp ⊢
    dsimp only at hp ⊢
    rcases ih _ p hp with h | h
    · rcases scrapeGame_tracker_bound target st gp p h with h2 | h2
      · exact Or.inl h2
      · right
        rw [rowPairs_append]
        exact List.mem_append_left _ h2
    · right
      rw [rowPairs_append]
      exact List.mem_append_right _ h

theorem runAux_rows_mem (target : Nat) :
    ∀ (L : List GamePages) (st : ScrapeState),
      ∀ row ∈ (runAux target L st).1,
        ∃ gp ∈ L, ∃ page, (page ∈ gp.posPages ∨ page ∈ gp.negPages) ∧
          ∃ r ∈ page, row = mkRow gp.name r := by
  intro L
  induction L with
  | nil =>
    intro st row hrow
    exact absurd hrow (List.not_mem_nil row)
  | cons gp rest ih =>
    intro st row hrow
    rw [runAux_cons] at hrow
    dsimp only at hrow
    rcases List.mem_append.mp hrow with h | h
    · obtain ⟨page, hor, r, hr, hrw⟩ := scrapeGame_rows_mem target st gp row h
      exact ⟨gp, List.mem_cons_self _ _, page, hor, r, hr, hrw⟩
    · obtain ⟨gp', hgp', rec⟩ := ih _ row h
      exact ⟨gp', List.mem_cons_of_mem _ hgp', rec⟩

/-- Run-level two-run simulation: the second run, started from a tracker
containing the first run's final tracker and from per-game counts equal to
the first run's starting counts plus the first run's accepted counts,
accepts zero records over the same remote data. -/
theorem runAux_idem (target : Nat) (tr2 : Tracker) :
    ∀ (L : List GamePages) (st1 : ScrapeState) (stats2 : String → Nat × Nat),
      (∀ gp ∈ L, ∀ page ∈ gp.posPages, ∀ r ∈ page, r.votedUp = true) →
      (∀ gp ∈ L, ∀ page ∈ gp.negPages, ∀ r ∈ page, r.votedUp = false) →
      (∀ gp ∈ L, stats2 gp.name =
        ((st1.stats gp.name).1 + posCount (runAux target L st1).1 gp.name,
         (st1.stats gp.name).2 + negCount (runAux target L st1).1 gp.name)) →
      (∀ p ∈ (runAux target L st1).2.tracker, p ∈ tr2) →
      (runAux target L ⟨tr2, stats2⟩).1 = [] ∧
      (runAux target L ⟨tr2, stats2⟩).2.tracker = tr2 := by
  intro L
  induction L with
  | nil =>
    intro st1 stats2 _ _ _ _
    exact ⟨rfl, rfl⟩
  | cons gp rest ih =>
    intro st1 stats2 hpos hneg hstats htr
    have hposgp := hpos gp (List.mem_cons_self _ _)
    have hneggp := hneg gp (List.mem_cons_self _ _)
    have hstatsgp := hstats gp (List.mem_cons_self _ _)
    rw [runAux_cons] at hstatsgp htr
    dsimp only at hstatsgp htr
    rw [posCount_append, negCount_append, ← Nat.add_assoc, ← Nat.add_assoc]
      at hstatsgp
    have htrgp : ∀ p ∈ (scrapeGame target st1 gp).2.tracker, p ∈ tr2 := by
      intro p hp2
      exact htr p (runAux_tracker_mono target rest (scrapeGame target st1 gp).2 p hp2)
    have hsg := scrapeGame_idem target st1 gp tr2 stats2
      (posCount (runAux target rest (scrapeGame target st1 gp).2).1 gp.name)
      (negCount (runAux target rest (scrapeGame target st1 gp).2).1 gp.name)
      hposgp hneggp hstatsgp htrgp
    have hstate : (scrapeGame target ⟨tr2, stats2⟩ gp).2 =
        ⟨tr2, (scrapeGame target ⟨tr2, stats2⟩ gp).2.stats⟩ := by
      have h2 := hsg.2
      generalize hX : (scrapeGame target ⟨tr2, stats2⟩ gp).2 = X at h2 ⊢
      cases X with
      | mk trk sts =>
        dsimp only at h2
        rw [h2]
    have hstats2' : ∀ x, (scrapeGame target ⟨tr2, stats2⟩ gp).2.stats x = stats2 x := by
      intro x
      have hq := scrapeGame_stats target ⟨tr2, stats2⟩ gp hposgp hneggp x
      rw [hsg.1] at hq
      simpa [posCount, negCount] using hq
    have hstatsrest : ∀ gp' ∈ rest,
        (scrapeGame target ⟨tr2, stats2⟩ gp).2.stats gp'.name =
          (((scrapeGame target st1 gp).2.stats gp'.name).1 +
            posCount (runAux target rest (scrapeGame target st1 gp).2).1 gp'.name,
           ((scrapeGame target st1 gp).2.stats gp'.name).2 +
            negCount (runAux target rest (scrapeGame target st1 gp).2).1 gp'.name) := by
      intro gp' hgp'
      rw [hstats2' gp'.name]
      have h0 := hstats gp' (List.mem_cons_of_mem _ hgp')
      rw [runAux_cons] at h0
      dsimp only at h0
      rw [posCount_append, negCount_append] at h0
      have h1 := scrapeGame_stats target st1 gp hposgp hneggp gp'.name
      rw [h0, h1]
      dsimp only
      simp [Nat.add_assoc]
    have htrrest : ∀ p ∈ (runAux target rest (scrapeGame target st1 gp).2).2.tracker,
        p ∈ tr2 := htr
    have hih := ih (scrapeGame target st1 gp).2
      ((scrapeGame target ⟨tr2, stats2⟩ gp).2.stats)
      (fun gp' h => hpos gp' (List.mem_cons_of_mem _ h))
      (fun gp' h => hneg gp' (List.mem_cons_of_mem _ h))
      hstatsrest htrrest
    rw [runAux_cons, hsg.1, hstate]
    dsimp only
    rw [List.nil_append]
    exact hih

/-- C4 counterexample: with a remote review whose author id is the
`'N/A'` placeholder, the first run accepts it but cannot track it in the
persisted table, so a second run over the same data accepts it again —
the second run's newly accepted records are not empty. -/
theorem C4_cex :
    runScraper 4
      (finalTable 4 []
        [⟨"g", [[⟨"N/A", ['a', ' ', 'b', ' ', 'c', ' ', 'd', ' ', 'e'], true⟩]],
          []⟩])
      [⟨"g", [[⟨"N/A", ['a', ' ', 'b', ' ', 'c', ' ', 'd', ' ', 'e'], true⟩]],
        []⟩] ≠ [] := by
  decide

/-- C4 (amended): the collector is idempotent provided every remote
candidate carries a real (non-`'N/A'`) reviewer identity and the
positive/negative listings only return candidates whose `voted_up` flag
matches the requested category: a second run over the table written by
the first run, with the remote source returning exactly the pages the
first run saw, accepts zero new records, for every starting table. -/
theorem C4_idempotent (target : Nat) (prior : List Row) (games : List GamePages)
    (hreal : ∀ gp ∈ games, ∀ page ∈ gp.posPages ++ gp.negPages, ∀ r ∈ page,
      r.userId ≠ "N/A")
    (hpos : ∀ gp ∈ games, ∀ page ∈ gp.posPages, ∀ r ∈ page, r.votedUp = true)
    (hneg : ∀ gp ∈ games, ∀ page ∈ gp.negPages, ∀ r ∈ page, r.votedUp = false) :
    runScraper target (finalTable target prior games) games = [] := by
  have hstats : ∀ gp ∈ games,
      (fun g => (posCount (prior ++ (runAux target games (initState prior)).1) g,
        negCount (prior ++ (runAux target games (initState prior)).1) g)) gp.name =
        (((initState prior).stats gp.name).1 +
          posCount (runAux target games (initState prior)).1 gp.name,
         ((initState prior).stats gp.name).2 +
          negCount (runAux target games (initState prior)).1 gp.name) := by
    intro gp _
    simp [initState, posCount_append, negCount_append]
  have htr : ∀ p ∈ (runAux target games (initState prior)).2.tracker,
      p ∈ realPairs (prior ++ (runAux target games (initState prior)).1) := by
    intro p hp
    rcases runAux_tracker_bound target games (initState prior) p hp with h | h
    · rw [realPairs_append]
      exact List.mem_append_left _ h
    · rw [realPairs_append]
      refine List.mem_append_right _ ?_
      simp only [rowPairs, List.mem_map] at h
      obtain ⟨row, hrow, rfl⟩ := h
      obtain ⟨gp, hgp, page, hpageor, r, hr, hrw⟩ :=
        runAux_rows_mem target games (initState prior) row hrow
      have hru : r.userId ≠ "N/A" := by
        refine hreal gp hgp page ?_ r hr
        rcases hpageor with h2 | h2
        · exact List.mem_append_left _ h2
        · exact List.mem_append_right _ h2
      subst hrw
      simp only [realPairs, List.mem_filterMap]
      refine ⟨mkRow gp.name r, hrow, ?_⟩
      simp [mkRow, hru]
  exact (runAux_idem target
    (realPairs (prior ++ (runAux target games (initState prior)).1)) games
    (initState prior)
    (fun g => (posCount (prior ++ (runAux target games (initState prior)).1) g,
      negCount (prior ++ (runAux target games (initState prior)).1) g))
    hpos hneg hstats htr).1

/-- Witness for C4 on a one-game source with a real reviewer identity:
the second run accepts nothing. -/
theorem C4_idempotent_witness :
    runScraper 4
      (finalTable 4 []
        [⟨"g", [[⟨"u1", ['a', ' ', 'b', ' ', 'c', ' ', 'd', ' ', 'e'], true⟩]],
          []⟩])
      [⟨"g", [[⟨"u1", ['a', ' ', 'b', ' ', 'c', ' ', 'd', ' ', 'e'], true⟩]],
        []⟩] = [] :=
  C4_idempotent 4 []
    [⟨"g", [[⟨"u1", ['a', ' ', 'b', ' ', 'c', ' ', 'd', ' ', 'e'], true⟩]], []⟩]
    (by decide) (by decide) (by decide)

/-! ## Claim C1 -/

/-- C1 counterexample: a prior table that already contains two records
with the same real `(reviewer, game)` key passes through the collector
untouched, so the written table still contains the duplicate pair — the
claim fails for tables whose prior contents violate the invariant. -/
theorem C1_cex :
    ¬ (realPairs (finalTable 4
        [⟨"g", "u", ['x'], true⟩, ⟨"g", "u", ['x'], true⟩] [])).Nodup := by
  decide

/-- C1 (amended): the collector preserves the uniqueness invariant — if
the prior persisted table has no two records sharing a real (non-`'N/A'`)
`(reviewer_id, subject_id)` pair, then neither does the final written
table, for every run configuration and every remote source behaviour. -/
theorem C1_dedup_invariant (target : Nat) (prior : List Row)
    (games : List GamePages) (h : (realPairs prior).Nodup) :
    (realPairs (finalTable target prior games)).Nodup := by
  have hrun := runAux_nodup target games (initState prior) prior
    (fun p hp => hp) h
  simpa [finalTable, mergeTables, runScraper] using hrun.2

/-- Witness for C1 on a duplicate-free prior table and a one-game,
one-candidate source. -/
theorem C1_dedup_invariant_witness :
    (realPairs ([] : List Row)).Nodup ∧
    (realPairs (finalTable 4 []
      [⟨"g", [[⟨"u1", ['a', ' ', 'b', ' ', 'c', ' ', 'd', ' ', 'e'], true⟩]],
        []⟩])).Nodup :=
  ⟨by decide, C1_dedup_invariant 4 [] _ (by decide)⟩

end DS
